import Mathlib

/-!
Verification of the distributed key-value store core (chanu1406/distributed-kv).

This file gives a shallow embedding of the storage/replication core into Lean:

* the LWW version order and the sharded in-memory store
  (src/include/storage/storage_engine.h, src/src/storage/storage_engine.cpp);
* the CRC32 checksum (src/src/utils/crc32.cpp);
* the MurmurHash3 64-bit hash (src/src/utils/murmurhash3.cpp);
* the write-ahead log serializer, deserializer and recovery loop
  (src/src/storage/wal.cpp);
* the line-framed wire protocol parser and formatters
  (src/src/network/protocol.cpp, coordinator command formatters);
* the consistent-hash-ring lookup (src/src/cluster/hash_ring.cpp);
* the coordinator's local replication execution and quorum-read winner
  selection (src/src/cluster/coordinator.cpp).

Byte sequences (C++ `std::vector<uint8_t>`) are modelled as `List Nat`,
character strings (C++ `std::string`) as `List Char`, machine integers as
`Nat` with explicit reductions modulo 2^w where C++ overflow/truncation
matters.  Stateful C++ methods are modelled by explicit state passing;
locking establishes the sequential per-operation semantics modelled here.
-/

/-! ## Version order (src/include/storage/storage_engine.h:14-24) -/

/-- Logical timestamp used for Last-Write-Wins conflict resolution.
`Version { uint64_t timestamp_ms; uint32_t node_id; }`. -/
structure Version where
  timestamp_ms : Nat := 0
  node_id : Nat := 0
deriving DecidableEq, Repr

/-- Source `is_newer(a, b)`: true if `a` is strictly newer than `b` under LWW rules
(timestamps compared first, node_id as the tiebreaker). -/
def is_newer (a b : Version) : Bool :=
  if a.timestamp_ms ≠ b.timestamp_ms then
    decide (b.timestamp_ms < a.timestamp_ms)
  else
    decide (b.node_id < a.node_id)

theorem is_newer_self_eq_false (v : Version) : is_newer v v = false := by
  simp [is_newer]

/-! ## Storage engine (src/src/storage/storage_engine.cpp)

The C++ engine partitions keys over 32 shards by `murmurhash3(key) % 32`;
each key deterministically belongs to exactly one shard, every operation
touches only that key's binding, and `all_entries` concatenates the
bindings of all shards.  A single association list holding one binding
per key is therefore an observationally equivalent sequential model of
`std::array<Shard, 32>` of `std::unordered_map<std::string, ValueEntry>`. -/

/-- A single value stored in the engine.  Tombstoned entries preserve the
version (`ValueEntry { bool is_tombstone; std::string value; Version version; }`). -/
structure ValueEntry where
  is_tombstone : Bool := false
  value : List Char := []
  version : Version := {}
deriving DecidableEq, Repr

/-- Result of a GET request (`GetResult`). -/
structure GetResult where
  found : Bool := false
  value : List Char := []
  version : Version := {}
deriving DecidableEq, Repr

/-- The sharded store, flattened to one association list (one binding per key). -/
def Store := List (List Char × ValueEntry)

namespace StorageEngine

/-- Source `shard.data[key] = entry`: replace the binding for `key`, or add one. -/
def upsert : Store → List Char → ValueEntry → Store
  | [], k, e => [(k, e)]
  | (k', e') :: rest, k, e =>
    if k' = k then (k, e) :: rest else (k', e') :: upsert rest k e

/-- Source `shard.data.find(key)`. -/
def find (s : Store) (k : List Char) : Option ValueEntry :=
  match s with
  | [] => none
  | (k', e) :: rest => if k' = k then some e else find rest k

/-- Source `StorageEngine::get` (storage_engine.cpp:12-22): not-found for missing
keys and tombstones, else the stored value and version. -/
def get (s : Store) (key : List Char) : GetResult :=
  match find s key with
  | none => {}
  | some e => if e.is_tombstone then {} else { found := true, value := e.value, version := e.version }

/-- Source `StorageEngine::set` (storage_engine.cpp:24-36): rejects when an entry
exists whose version is not strictly older; otherwise stores
`ValueEntry{false, value, version}`.  Returns the updated store and
whether the write was applied. -/
def set (s : Store) (key : List Char) (value : List Char) (version : Version) :
    Store × Bool :=
  match find s key with
  | some e =>
    if is_newer version e.version then
      (upsert s key { is_tombstone := false, value := value, version := version }, true)
    else
      (s, false)
  | none =>
    (upsert s key { is_tombstone := false, value := value, version := version }, true)

/-- Source `StorageEngine::del` (storage_engine.cpp:38-50): same LWW guard as `set`;
writes the tombstone `ValueEntry{true, "", version}` instead of erasing. -/
def del (s : Store) (key : List Char) (version : Version) : Store × Bool :=
  match find s key with
  | some e =>
    if is_newer version e.version then
      (upsert s key { is_tombstone := true, value := [], version := version }, true)
    else
      (s, false)
  | none =>
    (upsert s key { is_tombstone := true, value := [], version := version }, true)

/-- Source `StorageEngine::all_entries` (storage_engine.cpp:52-64): every binding of
every shard, i.e. the whole flattened store. -/
def all_entries (s : Store) : List (List Char × ValueEntry) := s

theorem find_upsert_self (s : Store) (k : List Char) (e : ValueEntry) :
    find (upsert s k e) k = some e := by
  induction s with
  | nil => simp [upsert, find]
  | cons p rest ih =>
    obtain ⟨k', e'⟩ := p
    by_cases h : k' = k
    · simp [upsert, h, find]
    · simp [upsert, h, find, ih]

theorem mem_of_find_eq_some {s : Store} {k : List Char} {e : ValueEntry}
    (h : find s k = some e) : (k, e) ∈ all_entries s := by
  induction s with
  | nil => simp [find] at h
  | cons p rest ih =>
    obtain ⟨k', e'⟩ := p
    by_cases hk : k' = k
    · simp [find, hk] at h
      subst hk
      simp [all_entries, h.symm]
    · simp [find, hk] at h
      have := ih h
      simp [all_entries] at this ⊢
      exact Or.inr this

end StorageEngine

/-! ## Claim theorems about the storage engine -/

/-- C1: `StorageEngine::set(key, value, version)` applies the write (storing a
non-tombstone entry with that value and version) and returns true exactly
when the key is absent from its shard or the given version is strictly
newer under the LWW order; a rejected write (in particular, one whose
version equals the stored version) leaves the store unchanged; and `del`
applies the identical guard. -/
theorem C1_set_lww_guard (s : Store) (k v : List Char) (ver : Version) :
    ((StorageEngine.set s k v ver).2 = true ↔
      (StorageEngine.find s k = none ∨
        ∃ e, StorageEngine.find s k = some e ∧ is_newer ver e.version = true))
    ∧ ((StorageEngine.set s k v ver).2 = true →
        StorageEngine.find (StorageEngine.set s k v ver).1 k =
          some { is_tombstone := false, value := v, version := ver })
    ∧ ((StorageEngine.set s k v ver).2 = false → (StorageEngine.set s k v ver).1 = s)
    ∧ (∀ e, StorageEngine.find s k = some e → ver = e.version →
        (StorageEngine.set s k v ver).2 = false ∧ (StorageEngine.set s k v ver).1 = s)
    ∧ (StorageEngine.del s k ver).2 = (StorageEngine.set s k v ver).2 := by
  refine ⟨?_, ?_, ?_, ?_, ?_⟩
  · constructor
    · intro h
      cases hf : StorageEngine.find s k with
      | none => exact Or.inl rfl
      | some e =>
        refine Or.inr ⟨e, rfl, ?_⟩
        by_contra hb
        simp [StorageEngine.set, hf, Bool.not_eq_true] at h hb
        simp [hb] at h
    · rintro (hf | ⟨e, hf, hn⟩)
      · simp [StorageEngine.set, hf]
      · simp [StorageEngine.set, hf, hn]
  · intro h
    cases hf : StorageEngine.find s k with
    | none => simp [StorageEngine.set, hf, StorageEngine.find_upsert_self]
    | some e =>
      by_cases hn : is_newer ver e.version
      · simp [StorageEngine.set, hf, hn, StorageEngine.find_upsert_self]
      · simp [StorageEngine.set, hf, hn] at h
  · intro h
    cases hf : StorageEngine.find s k with
    | none => simp [StorageEngine.set, hf] at h
    | some e =>
      by_cases hn : is_newer ver e.version
      · simp [StorageEngine.set, hf, hn] at h
      · simp [StorageEngine.set, hf, hn]
  · intro e hf hv
    subst hv
    simp [StorageEngine.set, hf, is_newer_self_eq_false]
  · cases hf : StorageEngine.find s k with
    | none => simp [StorageEngine.set, StorageEngine.del, hf]
    | some e =>
      by_cases hn : is_newer ver e.version
      · simp [StorageEngine.set, StorageEngine.del, hf, hn]
      · simp [StorageEngine.set, StorageEngine.del, hf, hn]

/-- Witness for C1 at a concrete store: a stale SET against version (2,1) is
rejected and the state is unchanged. -/
theorem C1_set_lww_guard_witness :
    ((StorageEngine.set [(['k'], ⟨false, ['a'], ⟨2, 1⟩⟩)] ['k'] ['b'] ⟨1, 1⟩).2 = true ↔
      (StorageEngine.find [(['k'], ⟨false, ['a'], ⟨2, 1⟩⟩)] ['k'] = none ∨
        ∃ e, StorageEngine.find [(['k'], ⟨false, ['a'], ⟨2, 1⟩⟩)] ['k'] = some e ∧
          is_newer ⟨1, 1⟩ e.version = true)) := by
  exact (C1_set_lww_guard _ _ _ _).1

/-- C4: after an applied `del(k, v)` the store still binds `k` to the
tombstone entry `{is_tombstone := true, value := "", version := v}`, that
binding is visible in `all_entries()`, `get(k)` reports not-found, every
SET whose version is not strictly newer than `v` is rejected without
changing the store, and a strictly newer SET replaces the tombstone. -/
theorem C4_tombstone_preserved (s : Store) (k : List Char) (v : Version)
    (h : (StorageEngine.del s k v).2 = true) :
    StorageEngine.find (StorageEngine.del s k v).1 k =
      some { is_tombstone := true, value := [], version := v }
    ∧ (k, ({ is_tombstone := true, value := [], version := v } : ValueEntry)) ∈
        StorageEngine.all_entries (StorageEngine.del s k v).1
    ∧ (StorageEngine.get (StorageEngine.del s k v).1 k).found = false
    ∧ (∀ val v2, is_newer v2 v = false →
        StorageEngine.set (StorageEngine.del s k v).1 k val v2 =
          ((StorageEngine.del s k v).1, false))
    ∧ (∀ val v2, is_newer v2 v = true →
        (StorageEngine.set (StorageEngine.del s k v).1 k val v2).2 = true ∧
        StorageEngine.find (StorageEngine.set (StorageEngine.del s k v).1 k val v2).1 k =
          some { is_tombstone := false, value := val, version := v2 }) := by
  have hfind : StorageEngine.find (StorageEngine.del s k v).1 k =
      some { is_tombstone := true, value := [], version := v } := by
    cases hf : StorageEngine.find s k with
    | none => simp [StorageEngine.del, hf, StorageEngine.find_upsert_self]
    | some e =>
      by_cases hn : is_newer v e.version
      · simp [StorageEngine.del, hf, hn, StorageEngine.find_upsert_self]
      · simp [StorageEngine.del, hf, hn] at h
  refine ⟨hfind, StorageEngine.mem_of_find_eq_some hfind, ?_, ?_, ?_⟩
  · simp [StorageEngine.get, hfind]
  · intro val v2 hn
    simp [StorageEngine.set, hfind, hn]
  · intro val v2 hn
    simp [StorageEngine.set, hfind, hn, StorageEngine.find_upsert_self]

/-- Witness for C4: delete key "k" (present with version (1,1)) at version
(2,1); the hypotheses of `C4_tombstone_preserved` hold. -/
theorem C4_tombstone_preserved_witness :
    (StorageEngine.del [(['k'], ⟨false, ['a'], ⟨1, 1⟩⟩)] ['k'] ⟨2, 1⟩).2 = true
    ∧ (StorageEngine.get
        (StorageEngine.del [(['k'], ⟨false, ['a'], ⟨1, 1⟩⟩)] ['k'] ⟨2, 1⟩).1
        ['k']).found = false := by
  refine ⟨by decide, ?_⟩
  exact (C4_tombstone_preserved _ _ _ (by decide)).2.2.1

/-- C9: deleting a key that is absent from the store succeeds: `del(k, v)`
returns true, binds `k` to a tombstone entry with empty value and version
`v`, the binding appears in `all_entries()`, and `get(k)` still reports
not-found. -/
theorem C9_del_absent_key (s : Store) (k : List Char) (v : Version)
    (h : StorageEngine.find s k = none) :
    (StorageEngine.del s k v).2 = true
    ∧ StorageEngine.find (StorageEngine.del s k v).1 k =
        some { is_tombstone := true, value := [], version := v }
    ∧ (k, ({ is_tombstone := true, value := [], version := v } : ValueEntry)) ∈
        StorageEngine.all_entries (StorageEngine.del s k v).1
    ∧ (StorageEngine.get (StorageEngine.del s k v).1 k).found = false := by
  have hfind : StorageEngine.find (StorageEngine.del s k v).1 k =
      some { is_tombstone := true, value := [], version := v } := by
    simp [StorageEngine.del, h, StorageEngine.find_upsert_self]
  refine ⟨by simp [StorageEngine.del, h], hfind,
    StorageEngine.mem_of_find_eq_some hfind, by simp [StorageEngine.get, hfind]⟩

/-- Witness for C9: deleting the never-written key "x" from a store holding
only "k". -/
theorem C9_del_absent_key_witness :
    StorageEngine.find [(['k'], ({} : ValueEntry))] ['x'] = none
    ∧ (StorageEngine.del [(['k'], ({} : ValueEntry))] ['x']
        { timestamp_ms := 5, node_id := 2 }).2 = true := by
  refine ⟨by decide, ?_⟩
  exact (C9_del_absent_key _ _ _ (by decide)).1

/-! ## CRC32 (src/src/utils/crc32.cpp)

The source generates a 256-entry table at compile time from the IEEE 802.3
polynomial 0xEDB88320 and folds each input byte through a table lookup. -/

/-- One reduction round of `generate_crc32_table`'s inner loop
(crc32.cpp:15-19): if the LSB is set, shift right and XOR the polynomial,
else just shift right. -/
def crcRound (c : Nat) : Nat :=
  if c &&& 1 = 1 then (c >>> 1) ^^^ 0xEDB88320 else c >>> 1

/-- Apply `crcRound` repeatedly (the table-generation inner loop runs it 8 times). -/
def crcIter : Nat → Nat → Nat
  | 0, c => c
  | k + 1, c => crcIter k (crcRound c)

/-- One entry of `generate_crc32_table` (crc32.cpp:11-24): eight reduction
rounds starting from the byte value. -/
def crcEntry (i : Nat) : Nat := crcIter 8 i

/-- Source `CRC32_TABLE` (crc32.cpp:26). -/
def CRC32_TABLE : List Nat := (List.range 256).map crcEntry

/-- Source `crc32(data, len)` (crc32.cpp:30-39): init 0xFFFFFFFF, per input byte
`crc = CRC32_TABLE[(crc ^ b) & 0xFF] ^ (crc >> 8)`, final XOR 0xFFFFFFFF. -/
def crc32 (data : List Nat) : Nat :=
  (data.foldl (fun crc b => (CRC32_TABLE.getD ((crc ^^^ b) &&& 255) 0) ^^^ (crc >>> 8))
    0xFFFFFFFF) ^^^ 0xFFFFFFFF

/-- Reference bitwise CRC32 stated from the spec (§4.2): initial value
0xFFFFFFFF, each byte XORed into the register followed by eight polynomial
reduction rounds with 0xEDB88320, and a final XOR with 0xFFFFFFFF. -/
def crc32_bitwise (data : List Nat) : Nat :=
  (data.foldl (fun crc b => crcIter 8 (crc ^^^ b)) 0xFFFFFFFF) ^^^ 0xFFFFFFFF

theorem shiftRight_xor_distrib (a b n : Nat) :
    (a ^^^ b) >>> n = (a >>> n) ^^^ (b >>> n) := by
  apply Nat.eq_of_testBit_eq
  intro i
  simp [Nat.testBit_shiftRight]

theorem and_255_eq_mod (a : Nat) : a &&& 255 = a % 256 := by
  have h := Nat.and_pow_two_sub_one_eq_mod a 8
  norm_num at h
  exact h

theorem crcRound_xor (a b : Nat) :
    crcRound (a ^^^ b) = crcRound a ^^^ crcRound b := by
  have hx : (a ^^^ b) &&& 1 = (a &&& 1) ^^^ (b &&& 1) := Nat.and_xor_distrib_right ..
  have hsr : (a ^^^ b) >>> 1 = (a >>> 1) ^^^ (b >>> 1) := shiftRight_xor_distrib a b 1
  have hlc : ∀ x y z : Nat, x ^^^ (y ^^^ z) = y ^^^ (x ^^^ z) := by
    intro x y z
    rw [← Nat.xor_assoc, Nat.xor_comm x y, Nat.xor_assoc]
  have ha : a &&& 1 = 0 ∨ a &&& 1 = 1 := by
    rw [Nat.and_one_is_mod]; exact Nat.mod_two_eq_zero_or_one a
  have hb : b &&& 1 = 0 ∨ b &&& 1 = 1 := by
    rw [Nat.and_one_is_mod]; exact Nat.mod_two_eq_zero_or_one b
  unfold crcRound
  rcases ha with ha | ha <;> rcases hb with hb | hb <;>
    rw [hx, ha, hb] <;>
      simp [hsr, ha, hb, Nat.xor_assoc, Nat.xor_comm, hlc, Nat.xor_self, Nat.xor_zero]

theorem crcIter_xor (k : Nat) : ∀ a b, crcIter k (a ^^^ b) = crcIter k a ^^^ crcIter k b := by
  induction k with
  | zero => intro a b; rfl
  | succ k ih => intro a b; simp [crcIter, crcRound_xor, ih]

theorem crcRound_shiftLeft (y k : Nat) : crcRound (y <<< (k + 1)) = y <<< k := by
  have heven : (y <<< (k + 1)) &&& 1 = 0 := by
    rw [Nat.and_one_is_mod, Nat.shiftLeft_eq, pow_succ, ← Nat.mul_assoc]
    exact Nat.mul_mod_left _ 2
  have hshift : (y <<< (k + 1)) >>> 1 = y <<< k := by
    rw [Nat.shiftLeft_eq, Nat.shiftLeft_eq, Nat.shiftRight_eq_div_pow, pow_succ, pow_one]
    rw [← Nat.mul_assoc]
    exact Nat.mul_div_cancel _ (by omega)
  simp [crcRound, heven, hshift]

theorem crcIter_shiftLeft : ∀ k y, crcIter k (y <<< k) = y := by
  intro k
  induction k with
  | zero => intro y; simp [crcIter]
  | succ k ih => intro y; simp [crcIter, crcRound_shiftLeft, ih]

theorem byte_decomp (x : Nat) : (x &&& 255) ^^^ ((x >>> 8) <<< 8) = x := by
  apply Nat.eq_of_testBit_eq
  intro i
  have h256 : (256 : Nat) = 2 ^ 8 := by norm_num
  rw [and_255_eq_mod, h256, Nat.testBit_xor, Nat.testBit_mod_two_pow, Nat.testBit_shiftLeft]
  by_cases h : i < 8
  · have hle : ¬ (8 ≤ i) := by omega
    simp [h, hle]
  · have h8 : 8 ≤ i := by omega
    have h8x : 8 + (i - 8) = i := by omega
    simp [h, h8, Nat.testBit_shiftRight, h8x]

theorem crcEntry_split (x : Nat) :
    crcEntry x = crcEntry (x &&& 255) ^^^ (x >>> 8) := by
  conv_lhs => rw [crcEntry, ← byte_decomp x]
  rw [crcIter_xor, crcIter_shiftLeft]
  rfl

theorem CRC32_TABLE_getD (i : Nat) (h : i < 256) :
    CRC32_TABLE.getD i 0 = crcEntry i := by
  simp [CRC32_TABLE, List.getD_eq_getElem?_getD, List.getElem?_map, List.getElem?_range h]

theorem crc32_step_eq (crc b : Nat) (hb : b < 256) :
    (CRC32_TABLE.getD ((crc ^^^ b) &&& 255) 0) ^^^ (crc >>> 8) = crcIter 8 (crc ^^^ b) := by
  have hidx : (crc ^^^ b) &&& 255 < 256 := by
    rw [and_255_eq_mod]; exact Nat.mod_lt _ (by omega)
  rw [CRC32_TABLE_getD _ hidx]
  have hb8 : b >>> 8 = 0 := by
    rw [Nat.shiftRight_eq_div_pow]
    exact Nat.div_eq_of_lt (by omega)
  have hc8 : (crc ^^^ b) >>> 8 = crc >>> 8 := by
    rw [shiftRight_xor_distrib, hb8, Nat.xor_zero]
  rw [← hc8, ← crcEntry_split]
  rfl

theorem crc32_foldl_eq (data : List Nat) :
    ∀ crc, (∀ b ∈ data, b < 256) →
      data.foldl (fun crc b => (CRC32_TABLE.getD ((crc ^^^ b) &&& 255) 0) ^^^ (crc >>> 8)) crc =
      data.foldl (fun crc b => crcIter 8 (crc ^^^ b)) crc := by
  induction data with
  | nil => intro crc _; rfl
  | cons b rest ih =>
    intro crc hall
    have hb : b < 256 := hall b (by simp)
    simp only [List.foldl_cons, crc32_step_eq crc b hb]
    exact ih _ (fun x hx => hall x (by simp [hx]))

/-- C8: the source `crc32` is CRC32 with the IEEE 802.3 polynomial
0xEDB88320, initial value 0xFFFFFFFF and final XOR 0xFFFFFFFF — it agrees
with the bitwise reference on every byte sequence — and in particular maps
"123456789" to 0xCBF43926 and the empty input to 0. -/
theorem C8_crc32_ieee :
    crc32 [0x31, 0x32, 0x33, 0x34, 0x35, 0x36, 0x37, 0x38, 0x39] = 0xCBF43926
    ∧ crc32 [] = 0
    ∧ ∀ data, (∀ b ∈ data, b < 256) → crc32 data = crc32_bitwise data := by
  refine ⟨by decide, by decide, ?_⟩
  intro data h
  unfold crc32 crc32_bitwise
  rw [crc32_foldl_eq data _ h]

/-- Witness for C8: the byte-range hypothesis of the refinement conjunct,
discharged for the bytes of "abc". -/
theorem C8_crc32_ieee_witness :
    (∀ b ∈ [0x61, 0x62, 0x63], b < 256) ∧
    crc32 [0x61, 0x62, 0x63] = crc32_bitwise [0x61, 0x62, 0x63] := by
  exact ⟨by decide, C8_crc32_ieee.2.2 _ (by decide)⟩

/-! ## Little-endian byte reads (wal.cpp:30-40, murmurhash3.cpp getblock64) -/

/-- Little-endian value of a byte list, as read by `memcpy` into an integer. -/
def leVal : List Nat → Nat
  | [] => 0
  | b :: bs => b + 256 * leVal bs

/-- Source `read_u32(p)` (wal.cpp:30-34): little-endian 32-bit read. -/
def read_u32 (l : List Nat) : Nat := leVal (l.take 4)

/-- Source `read_u64(p)` (wal.cpp:36-40): little-endian 64-bit read. -/
def read_u64 (l : List Nat) : Nat := leVal (l.take 8)

/-! ## MurmurHash3_x64_128 (src/src/utils/murmurhash3.cpp) -/

/-- Source `rotl64(x, r)` on uint64. -/
def rotl64 (x r : Nat) : Nat := ((x <<< r) ||| (x >>> (64 - r))) % 2 ^ 64

/-- Source `fmix64(k)` (murmurhash3.cpp:13-20). -/
def fmix64 (k : Nat) : Nat :=
  let k1 := k ^^^ (k >>> 33)
  let k2 := (k1 * 0xff51afd7ed558ccd) % 2 ^ 64
  let k3 := k2 ^^^ (k2 >>> 33)
  let k4 := (k3 * 0xc4ceb9fe1a85ec53) % 2 ^ 64
  k4 ^^^ (k4 >>> 33)

/-- One 16-byte block of the MurmurHash3 body loop (murmurhash3.cpp:45-66):
`k1`/`k2` are the two little-endian 64-bit words at byte offset `16*i`. -/
def murmurStep (data : List Nat) (h : Nat × Nat) (i : Nat) : Nat × Nat :=
  let c1 := 0x87c37b91114253d5
  let c2 := 0x4cf5ad432745937f
  let k1 := read_u64 (data.drop (16 * i))
  let k2 := read_u64 (data.drop (16 * i + 8))
  let k1 := (k1 * c1) % 2 ^ 64
  let k1 := rotl64 k1 31
  let k1 := (k1 * c2) % 2 ^ 64
  let h1 := h.1 ^^^ k1
  let h1 := rotl64 h1 27
  let h1 := (h1 + h.2) % 2 ^ 64
  let h1 := (h1 * 5 + 0x52dce729) % 2 ^ 64
  let k2 := (k2 * c2) % 2 ^ 64
  let k2 := rotl64 k2 33
  let k2 := (k2 * c1) % 2 ^ 64
  let h2 := h.2 ^^^ k2
  let h2 := rotl64 h2 31
  let h2 := (h2 + h1) % 2 ^ 64
  let h2 := (h2 * 5 + 0x38495ab5) % 2 ^ 64
  (h1, h2)

/-- XOR-accumulation of the tail switch (murmurhash3.cpp:74-100): byte `j`
of the sublist enters shifted left by `8*j`. -/
def tailAccum (bs : List Nat) : Nat :=
  (List.range bs.length).foldl (fun a i => a ^^^ ((bs.getD i 0) <<< (8 * i))) 0

/-- Source `MurmurHash3_x64_128(key, len, seed)` (murmurhash3.cpp:32-116). -/
def murmurhash3_x64_128 (data : List Nat) (seed : Nat) : Nat × Nat :=
  let len := data.length
  let nblocks := len / 16
  let c1 := 0x87c37b91114253d5
  let c2 := 0x4cf5ad432745937f
  let hb := (List.range nblocks).foldl (murmurStep data) (seed, seed)
  let t := data.drop (16 * nblocks)
  let k2 := tailAccum (t.drop 8)
  let h2 := if 9 ≤ t.length then
      hb.2 ^^^ (((rotl64 ((k2 * c2) % 2 ^ 64) 33) * c1) % 2 ^ 64)
    else hb.2
  let k1 := tailAccum (t.take 8)
  let h1 := if 1 ≤ t.length then
      hb.1 ^^^ (((rotl64 ((k1 * c1) % 2 ^ 64) 31) * c2) % 2 ^ 64)
    else hb.1
  let h1 := h1 ^^^ len
  let h2 := h2 ^^^ len
  let h1 := (h1 + h2) % 2 ^ 64
  let h2 := (h2 + h1) % 2 ^ 64
  let h1 := fmix64 h1
  let h2 := fmix64 h2
  let h1 := (h1 + h2) % 2 ^ 64
  let h2 := (h2 + h1) % 2 ^ 64
  (h1, h2)

/-- Source `murmurhash3(key, seed = 0)` (murmurhash3.cpp:118-121): lower 64 bits. -/
def murmurhash3 (key : List Nat) : Nat := (murmurhash3_x64_128 key 0).1

/-! ## Hash ring (src/src/cluster/hash_ring.cpp)

`ring_` is a `std::map<uint64_t, NodeInfo>`: iteration is in strictly
ascending position order, so the ring is modelled as a position-sorted
list of points; `upper_bound(h)` is the first point in that order whose
position is strictly greater than `h`. -/

/-- Source `NodeInfo { uint32_t node_id; std::string address; }`. -/
structure NodeInfo where
  node_id : Nat := 0
  address : List Char := []
deriving DecidableEq, Repr

namespace HashRing

/-- Source `HashRing::get_node` (hash_ring.cpp:43-56): empty ring gives nullopt;
otherwise take `upper_bound(murmurhash3(key))`, wrapping to `begin()`. -/
def get_node (ring : List (Nat × NodeInfo)) (key : List Nat) : Option NodeInfo :=
  match ring with
  | [] => none
  | _ =>
    match ring.find? (fun p => decide (murmurhash3 key < p.1)) with
    | some p => some p.2
    | none => ring.head?.map Prod.snd

theorem find_first_gt {h : Nat} :
    ∀ {ring : List (Nat × NodeInfo)} {pr : Nat × NodeInfo},
      ring.Pairwise (fun a b => a.1 < b.1) →
      ring.find? (fun p => decide (h < p.1)) = some pr →
      pr ∈ ring ∧ h < pr.1 ∧ ∀ q ∈ ring, h < q.1 → pr.1 ≤ q.1 := by
  intro ring
  induction ring with
  | nil => intro pr _ hf; simp [List.find?] at hf
  | cons a t ih =>
    intro pr hs hf
    rw [List.pairwise_cons] at hs
    by_cases hga : h < a.1
    · rw [List.find?_cons_of_pos _ (by simpa using hga)] at hf
      obtain rfl : a = pr := by simpa using hf
      refine ⟨by simp, hga, ?_⟩
      intro q hq _
      rcases List.mem_cons.mp hq with rfl | hq
      · exact le_refl _
      · exact le_of_lt (hs.1 q hq)
    · rw [List.find?_cons_of_neg _ (by simpa using hga)] at hf
      obtain ⟨hmem, hgt, hmin⟩ := ih hs.2 hf
      refine ⟨List.mem_cons_of_mem _ hmem, hgt, ?_⟩
      intro q hq hhq
      rcases List.mem_cons.mp hq with rfl | hq
      · exact absurd hhq hga
      · exact hmin q hq hhq

theorem find_none_all_le {h : Nat} {ring : List (Nat × NodeInfo)}
    (hf : ring.find? (fun p => decide (h < p.1)) = none) :
    ∀ q ∈ ring, q.1 ≤ h := by
  intro q hq
  have := List.find?_eq_none.mp hf q hq
  simpa using this

theorem sorted_head_min {a : Nat × NodeInfo} {t : List (Nat × NodeInfo)}
    (hs : (a :: t).Pairwise (fun x y => x.1 < y.1)) :
    ∀ q ∈ a :: t, a.1 ≤ q.1 := by
  rw [List.pairwise_cons] at hs
  intro q hq
  rcases List.mem_cons.mp hq with rfl | hq
  · exact le_refl _
  · exact le_of_lt (hs.1 q hq)

end HashRing

/-- C7: on a position-sorted nonempty ring, `get_node(key)` returns the
node at the first ring position strictly greater than `murmurhash3(key)`,
wrapping to the smallest position when no position is greater; on the
empty ring it returns nullopt. -/
theorem C7_get_node_successor (ring : List (Nat × NodeInfo)) (key : List Nat)
    (hs : ring.Pairwise (fun a b => a.1 < b.1)) :
    (ring = [] → HashRing.get_node ring key = none)
    ∧ (ring ≠ [] → ∃ p, p ∈ ring ∧ HashRing.get_node ring key = some p.2 ∧
        ((murmurhash3 key < p.1 ∧ ∀ q ∈ ring, murmurhash3 key < q.1 → p.1 ≤ q.1)
          ∨ ((∀ q ∈ ring, q.1 ≤ murmurhash3 key) ∧ ∀ q ∈ ring, p.1 ≤ q.1))) := by
  constructor
  · rintro rfl; rfl
  · intro hne
    cases hr : ring with
    | nil => exact absurd hr hne
    | cons a t =>
      subst hr
      cases hf : (a :: t).find? (fun p => decide (murmurhash3 key < p.1)) with
      | some pr =>
        obtain ⟨hmem, hgt, hmin⟩ := HashRing.find_first_gt hs hf
        exact ⟨pr, hmem, by simp [HashRing.get_node, hf], Or.inl ⟨hgt, hmin⟩⟩
      | none =>
        refine ⟨a, by simp, by simp [HashRing.get_node, hf], Or.inr
          ⟨HashRing.find_none_all_le hf, HashRing.sorted_head_min hs⟩⟩

/-- Witness for C7: a concrete two-point sorted ring and the key byte "k";
the sortedness hypothesis and nonemptiness are discharged by decide. -/
theorem C7_get_node_successor_witness :
    ([(10, ⟨1, []⟩), (20, ⟨2, []⟩)] : List (Nat × NodeInfo)).Pairwise (fun a b => a.1 < b.1)
    ∧ HashRing.get_node [(10, ⟨1, []⟩), (20, ⟨2, []⟩)] [107] ≠ none := by
  refine ⟨by decide, ?_⟩
  obtain ⟨p, _, hp, _⟩ :=
    (C7_get_node_successor [(10, ⟨1, []⟩), (20, ⟨2, []⟩)] [107] (by decide)).2 (by simp)
  simp [hp]

/-! ## Write-ahead log (src/src/storage/wal.cpp) -/

/-- A WAL record (`WalRecord`); `op_type` carries the uint8 enum value
(`OpType`: 0 = SET, 1 = DEL). -/
structure WalRecord where
  seq_no : Nat := 0
  timestamp_ms : Nat := 0
  op_type : Nat := 0
  key : List Nat := []
  value : List Nat := []
deriving DecidableEq, Repr

namespace WAL

/-- Source `write_u32` (wal.cpp:17-22): four little-endian bytes; values at or
above 2^32 are truncated exactly as the uint32_t cast does. -/
def write_u32 (v : Nat) : List Nat :=
  [v &&& 255, (v >>> 8) &&& 255, (v >>> 16) &&& 255, (v >>> 24) &&& 255]

/-- Source `write_u64` (wal.cpp:24-28): eight little-endian bytes via the loop
`buf.push_back((val >> (i * 8)) & 0xFF)`. -/
def write_u64 (v : Nat) : List Nat :=
  (List.range 8).map (fun i => (v >>> (8 * i)) &&& 255)

/-- The record payload of `WAL::serialize` (wal.cpp:137-146):
`[seq 8][ts 8][op 1][klen 4][key][vlen 4][value]`. -/
def payloadOf (r : WalRecord) : List Nat :=
  write_u64 r.seq_no ++ write_u64 r.timestamp_ms ++ [r.op_type % 256] ++
    write_u32 r.key.length ++ r.key ++ write_u32 r.value.length ++ r.value

/-- Source `WAL::serialize` (wal.cpp:132-158): CRC32 over the payload, then the
payload. -/
def serialize (r : WalRecord) : List Nat :=
  write_u32 (crc32 (payloadOf r)) ++ payloadOf r

/-- Source `WAL::deserialize` (wal.cpp:160-212): minimum-size check, key-length
bound check, total-record bound check, CRC check; on success the parsed
record and the total consumed byte count. -/
def deserialize (data : List Nat) : Option (WalRecord × Nat) :=
  if data.length < 29 then none
  else
    let stored_crc := read_u32 data
    let payload := data.drop 4
    let key_len := read_u32 (payload.drop 17)
    if 21 + key_len + 4 > data.length - 4 then none
    else
      let val_len := read_u32 (payload.drop (21 + key_len))
      let total_payload := 21 + key_len + 4 + val_len
      let total_record := 4 + total_payload
      if total_record > data.length then none
      else if crc32 (payload.take total_payload) ≠ stored_crc then none
      else
        some ({ seq_no := read_u64 payload,
                timestamp_ms := read_u64 (payload.drop 8),
                op_type := payload.getD 16 0,
                key := (payload.drop 21).take key_len,
                value := (payload.drop (25 + key_len)).take val_len }, total_record)

theorem deserialize_bounds {data : List Nat} {r : WalRecord} {c : Nat}
    (h : deserialize data = some (r, c)) : 29 ≤ c ∧ c ≤ data.length := by
  simp only [deserialize] at h
  split at h
  · exact absurd h (by simp)
  · split at h
    · exact absurd h (by simp)
    · split at h
      · exact absurd h (by simp)
      · split at h
        · exact absurd h (by simp)
        · rename_i h1 h2 h3 h4
          have hc : c = 4 + (21 + read_u32 ((data.drop 4).drop 17) + 4 +
              read_u32 ((data.drop 4).drop (21 + read_u32 ((data.drop 4).drop 17)))) := by
            have := congrArg Prod.snd (Option.some.inj h)
            simpa using this.symm
          constructor
          · omega
          · omega

/-- Source `WAL::recover`'s parsing loop (wal.cpp:91-111) together with the
`next_seq_no_` update: parse records sequentially from the front, halt at
the first record `deserialize` rejects, and raise `next` to `seq + 1`
whenever a recovered record has `seq ≥ next`. -/
def recoverRun (data : List Nat) (next : Nat) : List WalRecord × Nat :=
  match h : deserialize data with
  | none => ([], next)
  | some (r, c) =>
    let p := recoverRun (data.drop c) (if next ≤ r.seq_no then r.seq_no + 1 else next)
    (r :: p.1, p.2)
termination_by data.length
decreasing_by
  have hb := deserialize_bounds h
  simp only [List.length_drop]
  omega

theorem length_write_u32 (v : Nat) : (write_u32 v).length = 4 := rfl

theorem length_write_u64 (v : Nat) : (write_u64 v).length = 8 := by
  simp [write_u64]

theorem length_payloadOf (r : WalRecord) :
    (payloadOf r).length = 25 + r.key.length + r.value.length := by
  simp [payloadOf, length_write_u64, length_write_u32]
  omega

theorem length_serialize (r : WalRecord) :
    (serialize r).length = 29 + r.key.length + r.value.length := by
  simp [serialize, length_payloadOf, length_write_u32]
  omega

theorem write_u32_eq_map (v : Nat) :
    write_u32 v = (List.range 4).map (fun i => (v >>> (8 * i)) &&& 255) := by
  show write_u32 v = [0, 1, 2, 3].map (fun i => (v >>> (8 * i)) &&& 255)
  simp [write_u32, Nat.shiftRight_zero]

theorem leVal_bytes (k : Nat) :
    ∀ v, leVal ((List.range k).map (fun i => (v >>> (8 * i)) &&& 255)) = v % 2 ^ (8 * k) := by
  induction k with
  | zero => intro v; simp [leVal, Nat.mod_one]
  | succ k ih =>
    intro v
    rw [List.range_succ_eq_map]
    simp only [List.map_cons, List.map_map]
    have hcomp : ((fun i => (v >>> (8 * i)) &&& 255) ∘ (· + 1)) =
        (fun i => ((v >>> 8) >>> (8 * i)) &&& 255) := by
      funext i
      simp only [Function.comp_apply]
      rw [← Nat.shiftRight_add]
      congr 2
      omega
    rw [hcomp]
    simp only [leVal, Nat.mul_zero, Nat.shiftRight_zero]
    rw [ih, and_255_eq_mod]
    have hp : (2 : Nat) ^ (8 * (k + 1)) = 256 * 2 ^ (8 * k) := by
      have h8 : 8 * (k + 1) = 8 + 8 * k := by omega
      rw [h8, pow_add]
      norm_num
    rw [hp, Nat.mod_mul]
    have hdiv : v >>> 8 = v / 256 := by
      rw [Nat.shiftRight_eq_div_pow]
    rw [hdiv]

theorem read_u32_write (v : Nat) (rest : List Nat) :
    read_u32 (write_u32 v ++ rest) = v % 2 ^ 32 := by
  rw [read_u32, List.take_left' (length_write_u32 v), write_u32_eq_map, leVal_bytes]

theorem read_u64_write (v : Nat) (rest : List Nat) :
    read_u64 (write_u64 v ++ rest) = v % 2 ^ 64 := by
  rw [read_u64, List.take_left' (length_write_u64 v), write_u64, leVal_bytes]

theorem crcRound_lt {c : Nat} (h : c < 2 ^ 32) : crcRound c < 2 ^ 32 := by
  have h1 : c >>> 1 < 2 ^ 32 := by
    rw [Nat.shiftRight_eq_div_pow]
    omega
  unfold crcRound
  split
  · exact Nat.xor_lt_two_pow h1 (by norm_num)
  · exact h1

theorem crcIter_lt (k : Nat) : ∀ {c : Nat}, c < 2 ^ 32 → crcIter k c < 2 ^ 32 := by
  induction k with
  | zero => intro c h; exact h
  | succ k ih => intro c h; exact ih (crcRound_lt h)

theorem CRC32_TABLE_getD_lt (i : Nat) : CRC32_TABLE.getD i 0 < 2 ^ 32 := by
  by_cases h : i < 256
  · rw [CRC32_TABLE_getD i h]
    exact crcIter_lt 8 (by omega)
  · have hlen : CRC32_TABLE.length ≤ i := by
      simp [CRC32_TABLE]
      omega
    rw [List.getD_eq_default _ _ hlen]
    norm_num

theorem crc32_lt (data : List Nat) : crc32 data < 2 ^ 32 := by
  have hfold : ∀ (l : List Nat) (crc : Nat), crc < 2 ^ 32 →
      l.foldl (fun crc b => (CRC32_TABLE.getD ((crc ^^^ b) &&& 255) 0) ^^^ (crc >>> 8)) crc
        < 2 ^ 32 := by
    intro l
    induction l with
    | nil => intro crc h; exact h
    | cons b rest ih =>
      intro crc h
      apply ih
      have h8 : crc >>> 8 < 2 ^ 32 := by
        rw [Nat.shiftRight_eq_div_pow]
        omega
      exact Nat.xor_lt_two_pow (CRC32_TABLE_getD_lt _) h8
  exact Nat.xor_lt_two_pow (hfold data 0xFFFFFFFF (by norm_num)) (by norm_num)

theorem payload_assoc (r : WalRecord) (rest : List Nat) :
    payloadOf r ++ rest = write_u64 r.seq_no ++ (write_u64 r.timestamp_ms ++
      ([r.op_type % 256] ++ (write_u32 r.key.length ++
        (r.key ++ (write_u32 r.value.length ++ (r.value ++ rest)))))) := by
  simp [payloadOf]

theorem payload_drop8 (r : WalRecord) (rest : List Nat) :
    (payloadOf r ++ rest).drop 8 = write_u64 r.timestamp_ms ++
      ([r.op_type % 256] ++ (write_u32 r.key.length ++
        (r.key ++ (write_u32 r.value.length ++ (r.value ++ rest))))) := by
  rw [payload_assoc]
  exact List.drop_left' (length_write_u64 _)

theorem payload_drop17 (r : WalRecord) (rest : List Nat) :
    (payloadOf r ++ rest).drop 17 = write_u32 r.key.length ++
      (r.key ++ (write_u32 r.value.length ++ (r.value ++ rest))) := by
  rw [payload_assoc]
  rw [← List.append_assoc, ← List.append_assoc]
  apply List.drop_left'
  simp [length_write_u64]

theorem payload_drop21 (r : WalRecord) (rest : List Nat) :
    (payloadOf r ++ rest).drop 21 =
      r.key ++ (write_u32 r.value.length ++ (r.value ++ rest)) := by
  rw [payload_assoc]
  rw [← List.append_assoc, ← List.append_assoc, ← List.append_assoc]
  apply List.drop_left'
  simp [length_write_u64, length_write_u32]

theorem payload_drop21k (r : WalRecord) (rest : List Nat) :
    (payloadOf r ++ rest).drop (21 + r.key.length) =
      write_u32 r.value.length ++ (r.value ++ rest) := by
  rw [payload_assoc]
  rw [← List.append_assoc, ← List.append_assoc, ← List.append_assoc, ← List.append_assoc]
  apply List.drop_left'
  simp [length_write_u64, length_write_u32]
  omega

theorem payload_drop25k (r : WalRecord) (rest : List Nat) :
    (payloadOf r ++ rest).drop (25 + r.key.length) = r.value ++ rest := by
  rw [payload_assoc]
  rw [← List.append_assoc, ← List.append_assoc, ← List.append_assoc, ← List.append_assoc,
    ← List.append_assoc]
  apply List.drop_left'
  simp [length_write_u64, length_write_u32]
  omega

theorem payload_get16 (r : WalRecord) (rest : List Nat) :
    (payloadOf r ++ rest).getD 16 0 = r.op_type % 256 := by
  rw [List.getD_eq_getElem?_getD, payload_assoc, ← List.append_assoc]
  rw [List.getElem?_append_right (by simp [length_write_u64])]
  simp [length_write_u64]

/-- Field bounds that hold of every record the C++ program builds
(uint64/uint8/uint32 ranges). -/
def wfRecord (r : WalRecord) : Bool :=
  decide (r.seq_no < 2 ^ 64) && decide (r.timestamp_ms < 2 ^ 64) &&
  decide (r.op_type < 256) && decide (r.key.length < 2 ^ 32) &&
  decide (r.value.length < 2 ^ 32)

set_option maxHeartbeats 2000000 in
theorem deserialize_serialize (r : WalRecord) (rest : List Nat)
    (hw : wfRecord r = true) :
    deserialize (serialize r ++ rest) = some (r, (serialize r).length) := by
  simp only [wfRecord, Bool.and_eq_true, decide_eq_true_eq] at hw
  obtain ⟨⟨⟨⟨hseq, hts⟩, hop⟩, hkl⟩, hvl⟩ := hw
  have hdata : serialize r ++ rest =
      write_u32 (crc32 (payloadOf r)) ++ (payloadOf r ++ rest) := by
    simp [serialize]
  have hlen : (serialize r ++ rest).length =
      29 + r.key.length + r.value.length + rest.length := by
    simp [length_serialize]
  have hdrop4 : (serialize r ++ rest).drop 4 = payloadOf r ++ rest := by
    rw [hdata]; exact List.drop_left' (length_write_u32 _)
  have hstored : read_u32 (serialize r ++ rest) = crc32 (payloadOf r) := by
    rw [hdata, read_u32_write]
    exact Nat.mod_eq_of_lt (crc32_lt _)
  have hklen : read_u32 ((payloadOf r ++ rest).drop 17) = r.key.length := by
    rw [payload_drop17, read_u32_write, Nat.mod_eq_of_lt hkl]
  have hvlen : read_u32 ((payloadOf r ++ rest).drop (21 + r.key.length)) =
      r.value.length := by
    rw [payload_drop21k, read_u32_write, Nat.mod_eq_of_lt hvl]
  have hseq2 : read_u64 (payloadOf r ++ rest) = r.seq_no := by
    rw [payload_assoc, read_u64_write, Nat.mod_eq_of_lt hseq]
  have hts2 : read_u64 ((payloadOf r ++ rest).drop 8) = r.timestamp_ms := by
    rw [payload_drop8, read_u64_write, Nat.mod_eq_of_lt hts]
  have hop2 : (payloadOf r ++ rest).getD 16 0 = r.op_type := by
    rw [payload_get16, Nat.mod_eq_of_lt hop]
  have hkey : ((payloadOf r ++ rest).drop 21).take r.key.length = r.key := by
    rw [payload_drop21]; exact List.take_left _ _
  have hval : ((payloadOf r ++ rest).drop (25 + r.key.length)).take r.value.length =
      r.value := by
    rw [payload_drop25k]; exact List.take_left _ _
  have htake : (payloadOf r ++ rest).take (21 + r.key.length + 4 + r.value.length) =
      payloadOf r := by
    apply List.take_left'
    rw [length_payloadOf]; omega
  have hcrc := congrArg crc32 htake
  have hc1 : ¬ ((serialize r ++ rest).length < 29) := by rw [hlen]; omega
  simp only [deserialize]
  rw [if_neg hc1, hdrop4, hklen]
  have hc2 : ¬ (21 + r.key.length + 4 > (serialize r ++ rest).length - 4) := by
    rw [hlen]; omega
  rw [if_neg hc2, hvlen]
  have hc3 : ¬ (4 + (21 + r.key.length + 4 + r.value.length) >
      (serialize r ++ rest).length) := by
    rw [hlen]; omega
  rw [if_neg hc3, hcrc, hstored]
  rw [if_neg (by simp : ¬ (crc32 (payloadOf r) ≠ crc32 (payloadOf r)))]
  rw [hseq2, hts2, hop2, hkey, hval]
  simp only [Option.some.injEq, Prod.mk.injEq, length_serialize]
  exact ⟨trivial, by omega⟩

theorem read_u32_take {l : List Nat} {w : Nat} (h : 4 ≤ w) :
    read_u32 (l.take w) = read_u32 l := by
  rw [read_u32, read_u32, List.take_take, Nat.min_eq_left h]

theorem serialize_drop4 (r : WalRecord) : (serialize r).drop 4 = payloadOf r := by
  simp only [serialize]
  exact List.drop_left' (length_write_u32 _)

theorem deserialize_take (r : WalRecord) (m : Nat) (hw : wfRecord r = true)
    (hm : m < (serialize r).length) :
    deserialize ((serialize r).take m) = none := by
  simp only [wfRecord, Bool.and_eq_true, decide_eq_true_eq] at hw
  obtain ⟨⟨⟨⟨hseq, hts⟩, hop⟩, hkl⟩, hvl⟩ := hw
  have hlenS := length_serialize r
  have hlen : ((serialize r).take m).length = m := by
    rw [List.length_take]; omega
  have e17 : (payloadOf r).drop 17 =
      write_u32 r.key.length ++ (r.key ++ (write_u32 r.value.length ++ r.value)) := by
    have h := payload_drop17 r []
    simpa using h
  have e21k : (payloadOf r).drop (21 + r.key.length) =
      write_u32 r.value.length ++ r.value := by
    have h := payload_drop21k r []
    simpa using h
  simp only [deserialize]
  by_cases h1 : m < 29
  · rw [if_pos (by rw [hlen]; omega)]
  · rw [if_neg (by rw [hlen]; omega)]
    have hd4 : ((serialize r).take m).drop 4 = (payloadOf r).take (m - 4) := by
      rw [List.drop_take, serialize_drop4]
    have hklen : read_u32 (((payloadOf r).take (m - 4)).drop 17) = r.key.length := by
      rw [List.drop_take, read_u32_take (by omega), e17, read_u32_write,
        Nat.mod_eq_of_lt hkl]
    rw [hd4, hklen]
    by_cases h2 : m < 29 + r.key.length
    · rw [if_pos (by rw [hlen]; omega)]
    · rw [if_neg (by rw [hlen]; omega)]
      have hvlen : read_u32 (((payloadOf r).take (m - 4)).drop (21 + r.key.length)) =
          r.value.length := by
        rw [List.drop_take, read_u32_take (by omega), e21k, read_u32_write,
          Nat.mod_eq_of_lt hvl]
      rw [hvlen]
      rw [if_pos (by rw [hlen]; omega)]

theorem recoverRun_none {data : List Nat} {next : Nat}
    (h : deserialize data = none) : recoverRun data next = ([], next) := by
  rw [recoverRun]
  split
  · rfl
  · rename_i r c heq
    rw [h] at heq
    exact absurd heq (by simp)

theorem recoverRun_some {data : List Nat} {next : Nat} {r : WalRecord} {c : Nat}
    (h : deserialize data = some (r, c)) :
    recoverRun data next =
      ((r :: (recoverRun (data.drop c) (if next ≤ r.seq_no then r.seq_no + 1 else next)).1),
       (recoverRun (data.drop c) (if next ≤ r.seq_no then r.seq_no + 1 else next)).2) := by
  rw [recoverRun]
  split
  · rename_i heq
    rw [h] at heq
    exact absurd heq (by simp)
  · rename_i r2 c2 heq
    rw [h] at heq
    obtain ⟨rfl, rfl⟩ : r2 = r ∧ c2 = c := by
      have := Option.some.inj heq
      exact ⟨(Prod.mk.inj this).1.symm ▸ rfl, (Prod.mk.inj this).2.symm ▸ rfl⟩
    rfl

/-- Spec-side description of crash-safe recovery: the longest prefix of the
appended records whose serialized bytes lie entirely within the first `n`
bytes of the log. -/
def fitRecords : List WalRecord → Nat → List WalRecord
  | [], _ => []
  | r :: rs, n =>
    if (serialize r).length ≤ n then r :: fitRecords rs (n - (serialize r).length)
    else []

theorem recoverRun_take (rs : List WalRecord) :
    ∀ (hw : ∀ r ∈ rs, wfRecord r = true) (n next : Nat),
      recoverRun (((rs.map serialize).flatten).take n) next =
        (fitRecords rs n,
         (fitRecords rs n).foldl
           (fun nx r => if nx ≤ r.seq_no then r.seq_no + 1 else nx) next) := by
  induction rs with
  | nil =>
    intro _hw n next
    simp only [List.map_nil, List.flatten_nil, List.take_nil, fitRecords, List.foldl_nil]
    exact recoverRun_none (by simp [deserialize])
  | cons r rest ih =>
    intro hw n next
    have hwr : wfRecord r = true := hw r (by simp)
    have hwrest : ∀ x ∈ rest, wfRecord x = true := fun x hx => hw x (by simp [hx])
    simp only [List.map_cons, List.flatten_cons]
    rw [List.take_append_eq_append_take]
    by_cases hfit : (serialize r).length ≤ n
    · rw [List.take_of_length_le hfit]
      rw [recoverRun_some (deserialize_serialize r _ hwr), List.drop_left]
      rw [ih hwrest]
      simp only [fitRecords, hfit, if_true, List.foldl_cons]
    · have hz : n - (serialize r).length = 0 := by omega
      rw [hz, List.take_zero, List.append_nil]
      rw [recoverRun_none (deserialize_take r n hwr (by omega))]
      simp only [fitRecords, hfit, if_false, List.foldl_nil]

theorem foldl_max_init (l : List Nat) : ∀ a : Nat, l.foldl max a = max a (l.foldl max 0) := by
  induction l with
  | nil => intro a; simp
  | cons b t ih =>
    intro a
    simp only [List.foldl_cons]
    rw [ih (max a b), ih (max 0 b)]
    omega

theorem nextAfter_eq_max (l : List WalRecord) :
    ∀ c : Nat, 1 ≤ c →
      l.foldl (fun nx r => if nx ≤ r.seq_no then r.seq_no + 1 else nx) c =
        max c (((l.map WalRecord.seq_no).foldl max 0) + 1) := by
  induction l with
  | nil => intro c hc; simp; omega
  | cons r t ih =>
    intro c hc
    simp only [List.foldl_cons, List.map_cons]
    have hstep : (if c ≤ r.seq_no then r.seq_no + 1 else c) = max c (r.seq_no + 1) := by
      split <;> omega
    rw [hstep, ih (max c (r.seq_no + 1)) (by omega)]
    rw [foldl_max_init _ (max 0 r.seq_no)]
    omega

/-- WAL mutable state: `next_seq_no_` (wal.h:71), the file bytes written so
far, and the batched-fsync bookkeeping declared in wal.h:74-86 (`syncs`
counts fsync calls). -/
structure WALState where
  next_seq_no : Nat := 1
  file : List Nat := []
  fsync_batch_ops : Nat := 0
  ops_since_sync : Nat := 0
  dirty : Bool := false
  syncs : Nat := 0
deriving DecidableEq, Repr

/-- Modelled from the spec: the batched-fsync bookkeeping of `WAL::append`.
The sequence assignment (`rec.seq_no = next_seq_no_++`), serialization and
file write follow src/src/storage/wal.cpp:59-69; the ops-since-sync
counter, dirty flag and threshold fsync are declared in wal.h:74-86 and
requested by the three-argument `WAL::open` call in main.cpp:72, but their
defining code is absent from the repository sources, so that part is
modelled from §4.5 of the spec: each append increments the counter and
sets the dirty flag, and when `fsync_batch_ops > 0` and the counter
reaches it, the append fsyncs and resets the counter. -/
def append (w : WALState) (record : WalRecord) : Nat × WALState :=
  let s := w.next_seq_no
  let buf := serialize { record with seq_no := s }
  let ops := w.ops_since_sync + 1
  if 0 < w.fsync_batch_ops ∧ ops = w.fsync_batch_ops then
    (s,
      { w with
          next_seq_no := s + 1
          file := w.file ++ buf
          ops_since_sync := 0
          dirty := false
          syncs := w.syncs + 1 })
  else
    (s,
      { w with
          next_seq_no := s + 1
          file := w.file ++ buf
          ops_since_sync := ops
          dirty := true })

theorem append_fst (w : WALState) (r : WalRecord) : (append w r).1 = w.next_seq_no := by
  simp only [append]
  split <;> rfl

theorem append_next (w : WALState) (r : WalRecord) :
    (append w r).2.next_seq_no = w.next_seq_no + 1 := by
  simp only [append]
  split <;> rfl

theorem append_file (w : WALState) (r : WalRecord) :
    (append w r).2.file = w.file ++ serialize { r with seq_no := w.next_seq_no } := by
  simp only [append]
  split <;> rfl

theorem append_keeps_batch (w : WALState) (r : WalRecord) :
    (append w r).2.fsync_batch_ops = w.fsync_batch_ops := by
  simp only [append]
  split <;> rfl

end WAL

/-- C2: recovering a WAL file consisting of the serialized records `rs`
truncated to its first `n` bytes (this covers the untruncated file and
every removal of tail bytes) returns exactly the longest prefix of the
records whose serialized bytes — CRC header included — lie wholly within
those `n` bytes: the parse stops at the first short, length-inconsistent
or CRC-failing read, which by `WAL.deserialize_take` happens precisely at
the record the truncation tore.  Starting from a fresh `next_seq_no = 1`,
recovery leaves `next_seq_no` at one greater than the maximum `seq_no`
among the returned records. -/
theorem C2_recover_torn_tail (rs : List WalRecord) (n : Nat)
    (hw : ∀ r ∈ rs, WAL.wfRecord r = true) :
    WAL.recoverRun (((rs.map WAL.serialize).flatten).take n) 1 =
      (WAL.fitRecords rs n,
       ((WAL.fitRecords rs n).map WalRecord.seq_no).foldl max 0 + 1) := by
  rw [WAL.recoverRun_take rs hw n 1, WAL.nextAfter_eq_max _ 1 (by omega)]
  simp only [Prod.mk.injEq]
  exact ⟨trivial, by omega⟩

/-- First concrete record for the C2 witness. -/
def c2rec1 : WalRecord := { seq_no := 1, timestamp_ms := 100, op_type := 0, key := [107], value := [118] }

/-- Second concrete record for the C2 witness. -/
def c2rec2 : WalRecord := { seq_no := 2, timestamp_ms := 200, op_type := 1, key := [104], value := [] }

/-- Witness for C2: two concrete records, with the log truncated to 56 of
its 63 bytes (tearing the second record); the well-formedness hypothesis
is discharged by decide and the theorem applied at these inputs. -/
theorem C2_recover_torn_tail_witness :
    (∀ r ∈ [c2rec1, c2rec2], WAL.wfRecord r = true)
    ∧ WAL.recoverRun ((([c2rec1, c2rec2].map WAL.serialize).flatten).take 56) 1 =
      (WAL.fitRecords [c2rec1, c2rec2] 56,
       ((WAL.fitRecords [c2rec1, c2rec2] 56).map WalRecord.seq_no).foldl max 0 + 1) := by
  refine ⟨by decide, ?_⟩
  exact C2_recover_torn_tail [c2rec1, c2rec2] 56 (by decide)

/-- C3: every `WAL::append` call assigns `seq = next_seq_no` and advances
`next_seq_no` by one (so consecutive calls return consecutive sequence
numbers), writes the serialized record at the end of the file, increments
the ops-since-sync counter and sets the dirty flag, and — whenever
`fsync_batch_ops > 0` and the counter reaches `fsync_batch_ops` — performs
an fsync and resets the counter. -/
theorem C3_append_seq_and_fsync_batch (w : WAL.WALState) (r r2 : WalRecord) :
    (WAL.append w r).1 = w.next_seq_no
    ∧ (WAL.append w r).2.next_seq_no = w.next_seq_no + 1
    ∧ (WAL.append (WAL.append w r).2 r2).1 = (WAL.append w r).1 + 1
    ∧ (WAL.append w r).2.file =
        w.file ++ WAL.serialize { r with seq_no := w.next_seq_no }
    ∧ ((0 < w.fsync_batch_ops ∧ w.ops_since_sync + 1 = w.fsync_batch_ops) →
        (WAL.append w r).2.syncs = w.syncs + 1 ∧
        (WAL.append w r).2.ops_since_sync = 0)
    ∧ (¬ (0 < w.fsync_batch_ops ∧ w.ops_since_sync + 1 = w.fsync_batch_ops) →
        (WAL.append w r).2.syncs = w.syncs
        ∧ (WAL.append w r).2.ops_since_sync = w.ops_since_sync + 1
        ∧ (WAL.append w r).2.dirty = true) := by
  refine ⟨WAL.append_fst w r, WAL.append_next w r, ?_, WAL.append_file w r, ?_, ?_⟩
  · rw [WAL.append_fst, WAL.append_fst, WAL.append_next]
  · intro h
    simp only [WAL.append]
    rw [if_pos h]
    exact ⟨rfl, rfl⟩
  · intro h
    simp only [WAL.append]
    rw [if_neg h]
    exact ⟨rfl, rfl, rfl⟩

/-- Concrete WAL state for the C3 witness: batch threshold 2 with one
pending op, so the next append crosses the threshold and fsyncs. -/
def c3state : WAL.WALState := { next_seq_no := 7, file := [], fsync_batch_ops := 2, ops_since_sync := 1, dirty := true, syncs := 3 }

/-- Witness for C3: the batch-threshold hypothesis holds at `c3state`, and
applying the theorem there shows the append fsyncs and resets the counter. -/
theorem C3_append_seq_and_fsync_batch_witness :
    (0 < c3state.fsync_batch_ops ∧ c3state.ops_since_sync + 1 = c3state.fsync_batch_ops)
    ∧ ((WAL.append c3state {}).2.syncs = c3state.syncs + 1
        ∧ (WAL.append c3state {}).2.ops_since_sync = 0) := by
  refine ⟨by decide, ?_⟩
  exact (C3_append_seq_and_fsync_batch c3state {} {}).2.2.2.2.1 (by decide)

/-! ## Wire protocol (src/src/network/protocol.cpp)

Frames are newline-terminated; `try_parse` locates the first newline,
parses the frame before it, and reports how many bytes (newline included)
the frame used.  The `Command` defaults mirror the value-initialization of
`Command cmd{}` in C++ (enum value 0, empty strings, zero integers,
`hops_remaining = 2` from its default member initializer). -/

inductive CommandType
  | SET
  | GET
  | DEL
  | PING
  | FWD
  | RGET
  | RSET
  | RDEL
deriving DecidableEq, Repr

structure Command where
  type : CommandType := CommandType.SET
  key : List Char := []
  value : List Char := []
  timestamp_ms : Nat := 0
  node_id : Nat := 0
  hops_remaining : Nat := 2
  inner_line : List Char := []
deriving DecidableEq, Repr

inductive ParseStatus
  | OK
  | INCOMPLETE
  | ERROR
deriving DecidableEq, Repr

structure ParseResult where
  status : ParseStatus
  command : Command := {}
  bytes_consumed : Nat := 0
  error_msg : String := ""
deriving DecidableEq, Repr

/-- The digit test of `parse_u32`/`parse_u64` (protocol.cpp:26, 41). -/
def isDig (c : Char) : Bool := decide ('0' ≤ c) && decide (c ≤ '9')

/-- Source `consume_space` (protocol.cpp:14-18): advance past one mandatory space. -/
def consumeSpace : List Char → Option (List Char)
  | ' ' :: rest => some rest
  | _ => none

/-- The value `std::from_chars` computes for a digit run. -/
def decVal (ds : List Char) : Nat := ds.foldl (fun a c => 10 * a + (c.toNat - 48)) 0

/-- Source `parse_u32` (protocol.cpp:22-33): scan the maximal digit run; fail on an
empty run or on uint32 overflow (`from_chars` reports out_of_range). -/
def parseU32 (l : List Char) : Option (Nat × List Char) :=
  let ds := l.takeWhile isDig
  if ds.isEmpty then none
  else if decVal ds < 2 ^ 32 then some (decVal ds, l.dropWhile isDig)
  else none

/-- Source `parse_u64` (protocol.cpp:37-48). -/
def parseU64 (l : List Char) : Option (Nat × List Char) :=
  let ds := l.takeWhile isDig
  if ds.isEmpty then none
  else if decVal ds < 2 ^ 64 then some (decVal ds, l.dropWhile isDig)
  else none

/-- Source `read_bytes` (protocol.cpp:52-58): take exactly `count` raw bytes. -/
def readBytes (count : Nat) (l : List Char) : Option (List Char × List Char) :=
  if count ≤ l.length then some (l.take count, l.drop count) else none

/-- Lift an optional sub-parse into the error monad with the diagnostic the
source supplies at that point. -/
def need {α : Type} (o : Option α) (msg : String) : Except String α :=
  match o with
  | some a => Except.ok a
  | none => Except.error msg

/-- The shared body of the GET/DEL branch (protocol.cpp:101-121), reused
verbatim by RGET (protocol.cpp:184-204) with its own space diagnostic. -/
def parseKeyOnly (t : CommandType) (spaceMsg : String) (rest : List Char) :
    Except String Command := do
  let r0 ← need (consumeSpace rest) spaceMsg
  let (keyLen, r1) ← need (parseU32 r0) "invalid key_len"
  let r2 ← need (consumeSpace r1) "expected space after key_len"
  let (key, r3) ← need (readBytes keyLen r2) "key shorter than key_len"
  if r3.isEmpty then Except.ok { type := t, key := key }
  else Except.error "trailing data after key"

/-- Parse one newline-stripped frame: the command-word dispatch and field
sequences of `try_parse` (protocol.cpp:80-291). -/
def parseFrame (frame : List Char) : Except String Command :=
  let cmdWord := frame.takeWhile (fun c => c != ' ')
  let rest := frame.dropWhile (fun c => c != ' ')
  if cmdWord = ['P', 'I', 'N', 'G'] then
    if rest.isEmpty then Except.ok { type := CommandType.PING }
    else Except.error "PING takes no arguments"
  else if cmdWord = ['G', 'E', 'T'] then
    parseKeyOnly CommandType.GET "expected space after command" rest
  else if cmdWord = ['D', 'E', 'L'] then
    parseKeyOnly CommandType.DEL "expected space after command" rest
  else if cmdWord = ['S', 'E', 'T'] then do
    let r0 ← need (consumeSpace rest) "expected space after SET"
    let (keyLen, r1) ← need (parseU32 r0) "invalid key_len"
    let r2 ← need (consumeSpace r1) "expected space after key_len"
    let (key, r3) ← need (readBytes keyLen r2) "key shorter than key_len"
    let r4 ← need (consumeSpace r3) "expected space after key"
    let (valLen, r5) ← need (parseU32 r4) "invalid val_len"
    let r6 ← need (consumeSpace r5) "expected space after val_len"
    let (value, r7) ← need (readBytes valLen r6) "value shorter than val_len"
    if r7.isEmpty then Except.ok { type := CommandType.SET, key := key, value := value }
    else Except.error "trailing data after value"
  else if cmdWord = ['F', 'W', 'D'] then do
    let r0 ← need (consumeSpace rest) "expected space after FWD"
    let (hops, r1) ← need (parseU32 r0) "invalid hops_remaining"
    let r2 ← need (consumeSpace r1) "expected space after hops"
    if r2.isEmpty then Except.error "missing inner command"
    else Except.ok { type := CommandType.FWD, hops_remaining := hops, inner_line := r2 }
  else if cmdWord = ['R', 'G', 'E', 'T'] then
    parseKeyOnly CommandType.RGET "expected space after RGET" rest
  else if cmdWord = ['R', 'S', 'E', 'T'] then do
    let r0 ← need (consumeSpace rest) "expected space after RSET"
    let (keyLen, r1) ← need (parseU32 r0) "invalid key_len"
    let r2 ← need (consumeSpace r1) "expected space after key_len"
    let (key, r3) ← need (readBytes keyLen r2) "key shorter than key_len"
    let r4 ← need (consumeSpace r3) "expected space after key"
    let (valLen, r5) ← need (parseU32 r4) "invalid val_len"
    let r6 ← need (consumeSpace r5) "expected space after val_len"
    let (value, r7) ← need (readBytes valLen r6) "value shorter than val_len"
    let r8 ← need (consumeSpace r7) "expected space after value"
    let (ts, r9) ← need (parseU64 r8) "invalid timestamp_ms"
    let r10 ← need (consumeSpace r9) "expected space after timestamp_ms"
    let (nid, r11) ← need (parseU32 r10) "invalid node_id"
    if r11.isEmpty then
      Except.ok { type := CommandType.RSET, key := key, value := value,
                  timestamp_ms := ts, node_id := nid }
    else Except.error "trailing data after node_id"
  else if cmdWord = ['R', 'D', 'E', 'L'] then do
    let r0 ← need (consumeSpace rest) "expected space after RDEL"
    let (keyLen, r1) ← need (parseU32 r0) "invalid key_len"
    let r2 ← need (consumeSpace r1) "expected space after key_len"
    let (key, r3) ← need (readBytes keyLen r2) "key shorter than key_len"
    let r4 ← need (consumeSpace r3) "expected space after key"
    let (ts, r5) ← need (parseU64 r4) "invalid timestamp_ms"
    let r6 ← need (consumeSpace r5) "expected space after timestamp_ms"
    let (nid, r7) ← need (parseU32 r6) "invalid node_id"
    if r7.isEmpty then
      Except.ok { type := CommandType.RDEL, key := key, timestamp_ms := ts, node_id := nid }
    else Except.error "trailing data after node_id"
  else Except.error "unknown command"

/-- Source `try_parse` (protocol.cpp:64-292): the frame is everything before the
first newline; without a newline the result is INCOMPLETE with nothing
consumed; otherwise the whole frame, newline included, is consumed whether
the parse succeeds or fails. -/
def try_parse (data : List Char) : ParseResult :=
  if '\n' ∈ data then
    let frame := data.takeWhile (fun c => c != '\n')
    match parseFrame frame with
    | Except.ok c =>
      { status := ParseStatus.OK, command := c, bytes_consumed := frame.length + 1 }
    | Except.error m =>
      { status := ParseStatus.ERROR, bytes_consumed := frame.length + 1, error_msg := m }
  else
    { status := ParseStatus.INCOMPLETE }

/-- Source `std::to_string` on an unsigned integer: most-significant-first decimal
digits, accumulated from the low end. -/
def natToDecAux : Nat → List Char → List Char
  | n, acc =>
    if n < 10 then Nat.digitChar (n % 10) :: acc
    else natToDecAux (n / 10) (Nat.digitChar (n % 10) :: acc)
termination_by n _ => n
decreasing_by
  exact Nat.div_lt_self (by omega) (by omega)

def natToDec (n : Nat) : List Char := natToDecAux n []

/-- The source's wire formatters, with the trailing newline excluded:
`Coordinator::serialize_command_line` (coordinator.cpp:460-478) for
SET/GET/DEL/PING, `format_forward` (protocol.cpp:316-318) for FWD, and the
frames built by `send_replication_write` (coordinator.cpp:249-259) and
`send_replication_read` (coordinator.cpp:366) for RSET/RDEL/RGET. -/
def formatCommand (c : Command) : List Char :=
  match c.type with
  | CommandType.SET =>
    ['S', 'E', 'T', ' '] ++ natToDec c.key.length ++ [' '] ++ c.key ++ [' '] ++
      natToDec c.value.length ++ [' '] ++ c.value
  | CommandType.GET => ['G', 'E', 'T', ' '] ++ natToDec c.key.length ++ [' '] ++ c.key
  | CommandType.DEL => ['D', 'E', 'L', ' '] ++ natToDec c.key.length ++ [' '] ++ c.key
  | CommandType.PING => ['P', 'I', 'N', 'G']
  | CommandType.FWD =>
    ['F', 'W', 'D', ' '] ++ natToDec c.hops_remaining ++ [' '] ++ c.inner_line
  | CommandType.RGET => ['R', 'G', 'E', 'T', ' '] ++ natToDec c.key.length ++ [' '] ++ c.key
  | CommandType.RSET =>
    ['R', 'S', 'E', 'T', ' '] ++ natToDec c.key.length ++ [' '] ++ c.key ++ [' '] ++
      natToDec c.value.length ++ [' '] ++ c.value ++ [' '] ++
      natToDec c.timestamp_ms ++ [' '] ++ natToDec c.node_id
  | CommandType.RDEL =>
    ['R', 'D', 'E', 'L', ' '] ++ natToDec c.key.length ++ [' '] ++ c.key ++ [' '] ++
      natToDec c.timestamp_ms ++ [' '] ++ natToDec c.node_id

/-- A command is well formed when the fields its type carries are within
wire ranges, its byte fields contain no newline, and the fields its type
does not carry hold the `Command{}` defaults. -/
def wfCommand (c : Command) : Bool :=
  match c.type with
  | CommandType.PING =>
    c.key.isEmpty && c.value.isEmpty && decide (c.timestamp_ms = 0) &&
    decide (c.node_id = 0) && decide (c.hops_remaining = 2) && c.inner_line.isEmpty
  | CommandType.GET | CommandType.DEL | CommandType.RGET =>
    c.key.all (fun x => x != '\n') && decide (c.key.length < 2 ^ 32) &&
    c.value.isEmpty && decide (c.timestamp_ms = 0) && decide (c.node_id = 0) &&
    decide (c.hops_remaining = 2) && c.inner_line.isEmpty
  | CommandType.SET =>
    c.key.all (fun x => x != '\n') && decide (c.key.length < 2 ^ 32) &&
    c.value.all (fun x => x != '\n') && decide (c.value.length < 2 ^ 32) &&
    decide (c.timestamp_ms = 0) && decide (c.node_id = 0) &&
    decide (c.hops_remaining = 2) && c.inner_line.isEmpty
  | CommandType.FWD =>
    !c.inner_line.isEmpty && c.inner_line.all (fun x => x != '\n') &&
    decide (c.hops_remaining < 2 ^ 32) && c.key.isEmpty && c.value.isEmpty &&
    decide (c.timestamp_ms = 0) && decide (c.node_id = 0)
  | CommandType.RSET =>
    c.key.all (fun x => x != '\n') && decide (c.key.length < 2 ^ 32) &&
    c.value.all (fun x => x != '\n') && decide (c.value.length < 2 ^ 32) &&
    decide (c.timestamp_ms < 2 ^ 64) && decide (c.node_id < 2 ^ 32) &&
    decide (c.hops_remaining = 2) && c.inner_line.isEmpty
  | CommandType.RDEL =>
    c.key.all (fun x => x != '\n') && decide (c.key.length < 2 ^ 32) &&
    c.value.isEmpty && decide (c.timestamp_ms < 2 ^ 64) &&
    decide (c.node_id < 2 ^ 32) && decide (c.hops_remaining = 2) && c.inner_line.isEmpty

theorem natToDecAux_eq (n : Nat) (acc : List Char) :
    natToDecAux n acc = if n < 10 then Nat.digitChar (n % 10) :: acc
      else natToDecAux (n / 10) (Nat.digitChar (n % 10) :: acc) := by
  rw [natToDecAux]

theorem natToDecAux_acc (n : Nat) : ∀ acc, natToDecAux n acc = natToDecAux n [] ++ acc := by
  induction n using Nat.strong_induction_on with
  | _ n ih =>
    intro acc
    rw [natToDecAux_eq n acc, natToDecAux_eq n []]
    by_cases h : n < 10
    · simp [h]
    · simp only [h, if_false]
      rw [ih (n / 10) (Nat.div_lt_self (by omega) (by omega)) (Nat.digitChar (n % 10) :: acc),
        ih (n / 10) (Nat.div_lt_self (by omega) (by omega)) [Nat.digitChar (n % 10)]]
      simp

theorem natToDec_eq (n : Nat) :
    natToDec n = (if n < 10 then [] else natToDec (n / 10)) ++ [Nat.digitChar (n % 10)] := by
  rw [natToDec, natToDecAux_eq]
  by_cases h : n < 10
  · simp [h]
  · simp only [h, if_false]
    rw [natToDecAux_acc]
    rfl

theorem digitChar_isDig {m : Nat} (h : m < 10) : isDig (Nat.digitChar m) = true := by
  interval_cases m <;> decide

theorem digitChar_val {m : Nat} (h : m < 10) : (Nat.digitChar m).toNat - 48 = m := by
  interval_cases m <;> decide

theorem natToDec_all_dig (n : Nat) : ∀ c ∈ natToDec n, isDig c = true := by
  induction n using Nat.strong_induction_on with
  | _ n ih =>
    intro c hc
    rw [natToDec_eq] at hc
    rcases List.mem_append.mp hc with h1 | h2
    · by_cases h : n < 10
      · simp [h] at h1
      · simp only [h, if_false] at h1
        exact ih (n / 10) (Nat.div_lt_self (by omega) (by omega)) c h1
    · simp at h2
      subst h2
      exact digitChar_isDig (Nat.mod_lt _ (by omega))

theorem natToDec_ne_nil (n : Nat) : natToDec n ≠ [] := by
  rw [natToDec_eq]
  simp

theorem decVal_append_digit (xs : List Char) (d : Char) :
    decVal (xs ++ [d]) = 10 * decVal xs + (d.toNat - 48) := by
  simp [decVal, List.foldl_append]

theorem decVal_natToDec (n : Nat) : decVal (natToDec n) = n := by
  induction n using Nat.strong_induction_on with
  | _ n ih =>
    rw [natToDec_eq]
    by_cases h : n < 10
    · simp only [h, if_true, List.nil_append]
      show decVal [Nat.digitChar (n % 10)] = n
      simp [decVal, digitChar_val (Nat.mod_lt n (by omega) : n % 10 < 10)]
      omega
    · simp only [h, if_false]
      rw [decVal_append_digit, ih (n / 10) (Nat.div_lt_self (by omega) (by omega)),
        digitChar_val (Nat.mod_lt _ (by omega))]
      omega

theorem isDig_ne_nl {c : Char} (h : isDig c = true) : (c != '\n') = true := by
  simp only [isDig, Bool.and_eq_true, decide_eq_true_eq] at h
  simp only [bne_iff_ne, ne_eq]
  intro hc
  subst hc
  exact absurd h.1 (by decide)

theorem isDig_ne_sp {c : Char} (h : isDig c = true) : (c != ' ') = true := by
  simp only [isDig, Bool.and_eq_true, decide_eq_true_eq] at h
  simp only [bne_iff_ne, ne_eq]
  intro hc
  subst hc
  exact absurd h.1 (by decide)

theorem takeWhile_append_stop {p : Char → Bool} {y : Char} (hy : p y = false) :
    ∀ {xs : List Char}, (∀ x ∈ xs, p x = true) → ∀ r, (xs ++ y :: r).takeWhile p = xs := by
  intro xs
  induction xs with
  | nil => intro _ r; simp [List.takeWhile_cons, hy]
  | cons a t ih =>
    intro hall r
    have ha : p a = true := hall a (by simp)
    simp [List.takeWhile_cons, ha, ih (fun x hx => hall x (by simp [hx])) r]

theorem dropWhile_append_stop {p : Char → Bool} {y : Char} (hy : p y = false) :
    ∀ {xs : List Char}, (∀ x ∈ xs, p x = true) → ∀ r, (xs ++ y :: r).dropWhile p = y :: r := by
  intro xs
  induction xs with
  | nil => intro _ r; simp [List.dropWhile_cons, hy]
  | cons a t ih =>
    intro hall r
    have ha : p a = true := hall a (by simp)
    simp [List.dropWhile_cons, ha, ih (fun x hx => hall x (by simp [hx])) r]

theorem takeWhile_all_true {p : Char → Bool} :
    ∀ {xs : List Char}, (∀ x ∈ xs, p x = true) → xs.takeWhile p = xs ∧ xs.dropWhile p = [] := by
  intro xs
  induction xs with
  | nil => intro _; simp
  | cons a t ih =>
    intro hall
    have ha : p a = true := hall a (by simp)
    have ht := ih (fun x hx => hall x (by simp [hx]))
    simp [List.takeWhile_cons, List.dropWhile_cons, ha, ht.1, ht.2]

theorem parseU32_sp {n : Nat} (hn : n < 2 ^ 32) (r : List Char) :
    parseU32 (natToDec n ++ ' ' :: r) = some (n, ' ' :: r) := by
  have hall := natToDec_all_dig n
  have hall2 : ∀ x ∈ natToDec n, isDig x = true := hall
  simp only [parseU32]
  rw [takeWhile_append_stop (by decide) hall2 r, dropWhile_append_stop (by decide) hall2 r]
  simp [List.isEmpty_iff, natToDec_ne_nil n, decVal_natToDec n]
  omega

theorem parseU32_end {n : Nat} (hn : n < 2 ^ 32) :
    parseU32 (natToDec n) = some (n, []) := by
  have hall := natToDec_all_dig n
  have h := takeWhile_all_true (p := isDig) hall
  simp only [parseU32]
  rw [h.1, h.2]
  simp [List.isEmpty_iff, natToDec_ne_nil n, decVal_natToDec n]
  omega

theorem parseU64_sp {n : Nat} (hn : n < 2 ^ 64) (r : List Char) :
    parseU64 (natToDec n ++ ' ' :: r) = some (n, ' ' :: r) := by
  have hall := natToDec_all_dig n
  simp only [parseU64]
  rw [takeWhile_append_stop (by decide) hall r, dropWhile_append_stop (by decide) hall r]
  simp [List.isEmpty_iff, natToDec_ne_nil n, decVal_natToDec n]
  omega

theorem readBytes_exact (xs r : List Char) : readBytes xs.length (xs ++ r) = some (xs, r) := by
  simp only [readBytes]
  rw [if_pos (by simp)]
  rw [List.take_left, List.drop_left]

theorem readBytes_end (xs : List Char) : readBytes xs.length xs = some (xs, []) := by
  simp only [readBytes]
  rw [if_pos (by simp)]
  rw [List.take_length, List.drop_length]

theorem consumeSpace_cons (r : List Char) : consumeSpace (' ' :: r) = some r := rfl

theorem need_some {α : Type} (a : α) (m : String) : need (some a) m = Except.ok a := rfl

theorem exbind_ok {α β : Type} (a : α) (f : α → Except String β) :
    (Except.ok a >>= f : Except String β) = f a := rfl

theorem parseKeyOnly_fmt (t : CommandType) (msg : String) (key : List Char)
    (hkl : key.length < 2 ^ 32) :
    parseKeyOnly t msg (' ' :: (natToDec key.length ++ (' ' :: key))) =
      Except.ok { type := t, key := key } := by
  simp only [parseKeyOnly, consumeSpace_cons, need_some, exbind_ok, parseU32_sp hkl,
    readBytes_end, List.isEmpty_nil, if_true]

theorem parseFrame_PING : parseFrame ['P', 'I', 'N', 'G'] = Except.ok { type := CommandType.PING } := by
  rfl

theorem parseFrame_GET (key : List Char) (hkl : key.length < 2 ^ 32) :
    parseFrame (['G', 'E', 'T', ' '] ++ (natToDec key.length ++ (' ' :: key))) =
      Except.ok { type := CommandType.GET, key := key } := by
  simp [parseFrame, List.takeWhile_cons, List.dropWhile_cons, parseKeyOnly_fmt _ _ _ hkl]

theorem parseFrame_DEL (key : List Char) (hkl : key.length < 2 ^ 32) :
    parseFrame (['D', 'E', 'L', ' '] ++ (natToDec key.length ++ (' ' :: key))) =
      Except.ok { type := CommandType.DEL, key := key } := by
  simp [parseFrame, List.takeWhile_cons, List.dropWhile_cons, parseKeyOnly_fmt _ _ _ hkl]

theorem parseFrame_RGET (key : List Char) (hkl : key.length < 2 ^ 32) :
    parseFrame (['R', 'G', 'E', 'T', ' '] ++ (natToDec key.length ++ (' ' :: key))) =
      Except.ok { type := CommandType.RGET, key := key } := by
  simp [parseFrame, List.takeWhile_cons, List.dropWhile_cons, parseKeyOnly_fmt _ _ _ hkl]

theorem parseFrame_SET (key value : List Char) (hkl : key.length < 2 ^ 32)
    (hvl : value.length < 2 ^ 32) :
    parseFrame (['S', 'E', 'T', ' '] ++ (natToDec key.length ++ (' ' ::
        (key ++ (' ' :: (natToDec value.length ++ (' ' :: value))))))) =
      Except.ok { type := CommandType.SET, key := key, value := value } := by
  simp [parseFrame, List.takeWhile_cons, List.dropWhile_cons, consumeSpace_cons, need_some,
    exbind_ok, parseU32_sp hkl, parseU32_sp hvl, readBytes_exact, readBytes_end]

theorem parseFrame_FWD (hops : Nat) (inner : List Char) (hh : hops < 2 ^ 32)
    (hne : inner ≠ []) :
    parseFrame (['F', 'W', 'D', ' '] ++ (natToDec hops ++ (' ' :: inner))) =
      Except.ok { type := CommandType.FWD, hops_remaining := hops, inner_line := inner } := by
  simp [parseFrame, List.takeWhile_cons, List.dropWhile_cons, consumeSpace_cons, need_some,
    exbind_ok, parseU32_sp hh, List.isEmpty_iff, hne]

theorem parseFrame_RSET (key value : List Char) (ts nid : Nat)
    (hkl : key.length < 2 ^ 32) (hvl : value.length < 2 ^ 32)
    (hts : ts < 2 ^ 64) (hnid : nid < 2 ^ 32) :
    parseFrame (['R', 'S', 'E', 'T', ' '] ++ (natToDec key.length ++ (' ' ::
        (key ++ (' ' :: (natToDec value.length ++ (' ' ::
          (value ++ (' ' :: (natToDec ts ++ (' ' :: natToDec nid))))))))))) =
      Except.ok { type := CommandType.RSET, key := key, value := value, timestamp_ms := ts, node_id := nid } := by
  simp [parseFrame, List.takeWhile_cons, List.dropWhile_cons, consumeSpace_cons, need_some,
    exbind_ok, parseU32_sp hkl, parseU32_sp hvl, parseU64_sp hts, parseU32_end hnid,
    readBytes_exact, readBytes_end]

theorem parseFrame_RDEL (key : List Char) (ts nid : Nat)
    (hkl : key.length < 2 ^ 32) (hts : ts < 2 ^ 64) (hnid : nid < 2 ^ 32) :
    parseFrame (['R', 'D', 'E', 'L', ' '] ++ (natToDec key.length ++ (' ' ::
        (key ++ (' ' :: (natToDec ts ++ (' ' :: natToDec nid))))))) =
      Except.ok { type := CommandType.RDEL, key := key, timestamp_ms := ts, node_id := nid } := by
  simp [parseFrame, List.takeWhile_cons, List.dropWhile_cons, consumeSpace_cons, need_some,
    exbind_ok, parseU32_sp hkl, parseU64_sp hts, parseU32_end hnid,
    readBytes_exact, readBytes_end]

theorem all_ne_nl_append {xs ys : List Char}
    (hx : ∀ x ∈ xs, (x != '\n') = true) (hy : ∀ x ∈ ys, (x != '\n') = true) :
    ∀ x ∈ xs ++ ys, (x != '\n') = true := by
  intro x hmem
  rcases List.mem_append.mp hmem with h | h
  · exact hx x h
  · exact hy x h

theorem all_ne_nl_cons {c : Char} {ys : List Char} (hc : (c != '\n') = true)
    (hy : ∀ x ∈ ys, (x != '\n') = true) : ∀ x ∈ c :: ys, (x != '\n') = true := by
  intro x hmem
  rcases List.mem_cons.mp hmem with rfl | h
  · exact hc
  · exact hy x h

theorem all_ne_nl_dec (n : Nat) : ∀ x ∈ natToDec n, (x != '\n') = true :=
  fun x hx => isDig_ne_nl (natToDec_all_dig n x hx)

theorem round_trip_ok (C : Command) (hwf : wfCommand C = true) :
    try_parse (formatCommand C ++ ['\n']) =
      { status := ParseStatus.OK, command := C,
        bytes_consumed := (formatCommand C).length + 1, error_msg := "" } := by
  obtain ⟨ty, key, value, ts, nid, hops, inner⟩ := C
  cases ty with
  | PING =>
    simp only [wfCommand, Bool.and_eq_true, decide_eq_true_eq, List.isEmpty_iff] at hwf
    obtain ⟨⟨⟨⟨⟨h1, h2⟩, h3⟩, h4⟩, h5⟩, h6⟩ := hwf
    subst h1; subst h2; subst h3; subst h4; subst h5; subst h6
    decide
  | GET =>
    simp only [wfCommand, Bool.and_eq_true, decide_eq_true_eq, List.isEmpty_iff,
      List.all_eq_true] at hwf
    obtain ⟨⟨⟨⟨⟨⟨hk, hkl⟩, hv⟩, ht⟩, hn⟩, hh⟩, hi⟩ := hwf
    subst hv; subst ht; subst hn; subst hh; subst hi
    have hfmt : formatCommand { type := CommandType.GET, key := key } =
        ['G', 'E', 'T', ' '] ++ (natToDec key.length ++ (' ' :: key)) := by
      simp [formatCommand]
    rw [hfmt]
    have hnl : ∀ x ∈ ['G', 'E', 'T', ' '] ++ (natToDec key.length ++ (' ' :: key)),
        (x != '\n') = true :=
      all_ne_nl_append (by decide)
        (all_ne_nl_append (all_ne_nl_dec _) (all_ne_nl_cons (by decide) hk))
    simp only [try_parse]
    rw [if_pos (by simp), takeWhile_append_stop (by decide) hnl [],
      parseFrame_GET key hkl]
  | DEL =>
    simp only [wfCommand, Bool.and_eq_true, decide_eq_true_eq, List.isEmpty_iff,
      List.all_eq_true] at hwf
    obtain ⟨⟨⟨⟨⟨⟨hk, hkl⟩, hv⟩, ht⟩, hn⟩, hh⟩, hi⟩ := hwf
    subst hv; subst ht; subst hn; subst hh; subst hi
    have hfmt : formatCommand { type := CommandType.DEL, key := key } =
        ['D', 'E', 'L', ' '] ++ (natToDec key.length ++ (' ' :: key)) := by
      simp [formatCommand]
    rw [hfmt]
    have hnl : ∀ x ∈ ['D', 'E', 'L', ' '] ++ (natToDec key.length ++ (' ' :: key)),
        (x != '\n') = true :=
      all_ne_nl_append (by decide)
        (all_ne_nl_append (all_ne_nl_dec _) (all_ne_nl_cons (by decide) hk))
    simp only [try_parse]
    rw [if_pos (by simp), takeWhile_append_stop (by decide) hnl [],
      parseFrame_DEL key hkl]
  | RGET =>
    simp only [wfCommand, Bool.and_eq_true, decide_eq_true_eq, List.isEmpty_iff,
      List.all_eq_true] at hwf
    obtain ⟨⟨⟨⟨⟨⟨hk, hkl⟩, hv⟩, ht⟩, hn⟩, hh⟩, hi⟩ := hwf
    subst hv; subst ht; subst hn; subst hh; subst hi
    have hfmt : formatCommand { type := CommandType.RGET, key := key } =
        ['R', 'G', 'E', 'T', ' '] ++ (natToDec key.length ++ (' ' :: key)) := by
      simp [formatCommand]
    rw [hfmt]
    have hnl : ∀ x ∈ ['R', 'G', 'E', 'T', ' '] ++ (natToDec key.length ++ (' ' :: key)),
        (x != '\n') = true :=
      all_ne_nl_append (by decide)
        (all_ne_nl_append (all_ne_nl_dec _) (all_ne_nl_cons (by decide) hk))
    simp only [try_parse]
    rw [if_pos (by simp), takeWhile_append_stop (by decide) hnl [],
      parseFrame_RGET key hkl]
  | SET =>
    simp only [wfCommand, Bool.and_eq_true, decide_eq_true_eq, List.isEmpty_iff,
      List.all_eq_true] at hwf
    obtain ⟨⟨⟨⟨⟨⟨⟨hk, hkl⟩, hvn⟩, hvl⟩, ht⟩, hn⟩, hh⟩, hi⟩ := hwf
    subst ht; subst hn; subst hh; subst hi
    have hfmt : formatCommand { type := CommandType.SET, key := key, value := value } =
        ['S', 'E', 'T', ' '] ++ (natToDec key.length ++ (' ' ::
          (key ++ (' ' :: (natToDec value.length ++ (' ' :: value)))))) := by
      simp [formatCommand]
    rw [hfmt]
    have hnl : ∀ x ∈ ['S', 'E', 'T', ' '] ++ (natToDec key.length ++ (' ' ::
        (key ++ (' ' :: (natToDec value.length ++ (' ' :: value)))))),
        (x != '\n') = true :=
      all_ne_nl_append (by decide)
        (all_ne_nl_append (all_ne_nl_dec _) (all_ne_nl_cons (by decide)
          (all_ne_nl_append hk (all_ne_nl_cons (by decide)
            (all_ne_nl_append (all_ne_nl_dec _) (all_ne_nl_cons (by decide) hvn))))))
    simp only [try_parse]
    rw [if_pos (by simp), takeWhile_append_stop (by decide) hnl [],
      parseFrame_SET key value hkl hvl]
  | FWD =>
    simp only [wfCommand, Bool.and_eq_true, decide_eq_true_eq, List.isEmpty_iff,
      List.all_eq_true] at hwf
    obtain ⟨⟨⟨⟨⟨⟨hne, hin⟩, hh⟩, hk⟩, hv⟩, ht⟩, hn⟩ := hwf
    subst hk; subst hv; subst ht; subst hn
    have hne2 : inner ≠ [] := by simpa using hne
    have hfmt : formatCommand { type := CommandType.FWD, hops_remaining := hops, inner_line := inner } =
        ['F', 'W', 'D', ' '] ++ (natToDec hops ++ (' ' :: inner)) := by
      simp [formatCommand]
    rw [hfmt]
    have hnl : ∀ x ∈ ['F', 'W', 'D', ' '] ++ (natToDec hops ++ (' ' :: inner)),
        (x != '\n') = true :=
      all_ne_nl_append (by decide)
        (all_ne_nl_append (all_ne_nl_dec _) (all_ne_nl_cons (by decide) hin))
    simp only [try_parse]
    rw [if_pos (by simp), takeWhile_append_stop (by decide) hnl [],
      parseFrame_FWD hops inner hh hne2]
  | RSET =>
    simp only [wfCommand, Bool.and_eq_true, decide_eq_true_eq, List.isEmpty_iff,
      List.all_eq_true] at hwf
    obtain ⟨⟨⟨⟨⟨⟨⟨hk, hkl⟩, hvn⟩, hvl⟩, hts⟩, hnid⟩, hh⟩, hi⟩ := hwf
    subst hh; subst hi
    have hfmt : formatCommand { type := CommandType.RSET, key := key, value := value, timestamp_ms := ts, node_id := nid } =
        ['R', 'S', 'E', 'T', ' '] ++ (natToDec key.length ++ (' ' ::
          (key ++ (' ' :: (natToDec value.length ++ (' ' ::
            (value ++ (' ' :: (natToDec ts ++ (' ' :: natToDec nid)))))))))) := by
      simp [formatCommand]
    rw [hfmt]
    have hnl : ∀ x ∈ ['R', 'S', 'E', 'T', ' '] ++ (natToDec key.length ++ (' ' ::
        (key ++ (' ' :: (natToDec value.length ++ (' ' ::
          (value ++ (' ' :: (natToDec ts ++ (' ' :: natToDec nid)))))))))),
        (x != '\n') = true :=
      all_ne_nl_append (by decide)
        (all_ne_nl_append (all_ne_nl_dec _) (all_ne_nl_cons (by decide)
          (all_ne_nl_append hk (all_ne_nl_cons (by decide)
            (all_ne_nl_append (all_ne_nl_dec _) (all_ne_nl_cons (by decide)
              (all_ne_nl_append hvn (all_ne_nl_cons (by decide)
                (all_ne_nl_append (all_ne_nl_dec _) (all_ne_nl_cons (by decide)
                  (all_ne_nl_dec _)))))))))))
    simp only [try_parse]
    rw [if_pos (by simp), takeWhile_append_stop (by decide) hnl [],
      parseFrame_RSET key value ts nid hkl hvl hts hnid]
  | RDEL =>
    simp only [wfCommand, Bool.and_eq_true, decide_eq_true_eq, List.isEmpty_iff,
      List.all_eq_true] at hwf
    obtain ⟨⟨⟨⟨⟨⟨hk, hkl⟩, hv⟩, hts⟩, hnid⟩, hh⟩, hi⟩ := hwf
    subst hv; subst hh; subst hi
    have hfmt : formatCommand { type := CommandType.RDEL, key := key, timestamp_ms := ts, node_id := nid } =
        ['R', 'D', 'E', 'L', ' '] ++ (natToDec key.length ++ (' ' ::
          (key ++ (' ' :: (natToDec ts ++ (' ' :: natToDec nid)))))) := by
      simp [formatCommand]
    rw [hfmt]
    have hnl : ∀ x ∈ ['R', 'D', 'E', 'L', ' '] ++ (natToDec key.length ++ (' ' ::
        (key ++ (' ' :: (natToDec ts ++ (' ' :: natToDec nid)))))),
        (x != '\n') = true :=
      all_ne_nl_append (by decide)
        (all_ne_nl_append (all_ne_nl_dec _) (all_ne_nl_cons (by decide)
          (all_ne_nl_append hk (all_ne_nl_cons (by decide)
            (all_ne_nl_append (all_ne_nl_dec _) (all_ne_nl_cons (by decide)
              (all_ne_nl_dec _)))))))
    simp only [try_parse]
    rw [if_pos (by simp), takeWhile_append_stop (by decide) hnl [],
      parseFrame_RDEL key ts nid hkl hts hnid]

theorem try_parse_incomplete (l : List Char) (h : '\n' ∉ l) :
    try_parse l = { status := ParseStatus.INCOMPLETE, command := {}, bytes_consumed := 0, error_msg := "" } := by
  simp [try_parse, h]

theorem try_parse_error_consumed (l : List Char)
    (h : (try_parse l).status = ParseStatus.ERROR) :
    (try_parse l).bytes_consumed = (l.takeWhile (fun c => c != '\n')).length + 1 := by
  by_cases hm : '\n' ∈ l
  · simp only [try_parse, if_pos hm] at h ⊢
    cases hp : parseFrame (l.takeWhile (fun c => c != '\n')) with
    | ok c => rw [hp] at h
    | error m => rfl
  · simp only [try_parse, if_neg hm] at h
    exact absurd h (by simp)

/-- C5: formatting any well-formed command and appending the newline parses
back to exactly that command with OK status, consuming the full frame
(format length plus the newline); input without a newline is INCOMPLETE
with zero bytes consumed; every ERROR outcome consumes the whole frame
through its newline (the index of the first newline plus one); and a PING
frame carrying trailing arguments is an ERROR. -/
theorem C5_parse_format_round_trip :
    (∀ C : Command, wfCommand C = true →
      try_parse (formatCommand C ++ ['\n']) =
        { status := ParseStatus.OK, command := C, bytes_consumed := (formatCommand C).length + 1, error_msg := "" })
    ∧ (∀ l : List Char, '\n' ∉ l →
        try_parse l = { status := ParseStatus.INCOMPLETE, command := {}, bytes_consumed := 0, error_msg := "" })
    ∧ (∀ l : List Char, (try_parse l).status = ParseStatus.ERROR →
        (try_parse l).bytes_consumed = (l.takeWhile (fun c => c != '\n')).length + 1)
    ∧ try_parse ['P', 'I', 'N', 'G', ' ', 'e', 'x', 't', 'r', 'a', '\n'] =
        { status := ParseStatus.ERROR, command := {}, bytes_consumed := 11, error_msg := "PING takes no arguments" } :=
  ⟨round_trip_ok, try_parse_incomplete, try_parse_error_consumed, by decide⟩

/-- Witness for C5: the round-trip conjunct applied to the concrete command
SET with key "k" and value "v"; its well-formedness is discharged by
decide. -/
theorem C5_parse_format_round_trip_witness :
    wfCommand { type := CommandType.SET, key := ['k'], value := ['v'] } = true
    ∧ try_parse (formatCommand { type := CommandType.SET, key := ['k'], value := ['v'] } ++ ['\n']) =
        { status := ParseStatus.OK, command := { type := CommandType.SET, key := ['k'], value := ['v'] }, bytes_consumed := (formatCommand { type := CommandType.SET, key := ['k'], value := ['v'] }).length + 1, error_msg := "" } := by
  refine ⟨by decide, ?_⟩
  exact C5_parse_format_round_trip.1 _ (by decide)

/-! ## Coordinator local execution (src/src/cluster/coordinator.cpp)

Response formatters from protocol.cpp:296-325, as character lists. -/

def format_ok : List Char := ['+', 'O', 'K', '\n']

def format_pong : List Char := ['+', 'P', 'O', 'N', 'G', '\n']

def format_not_found : List Char := ['-', 'N', 'O', 'T', '_', 'F', 'O', 'U', 'N', 'D', '\n']

def format_error (msg : List Char) : List Char := ['-', 'E', 'R', 'R', ' '] ++ msg ++ ['\n']

def format_value (value : List Char) : List Char :=
  ['$'] ++ natToDec value.length ++ [' '] ++ value ++ ['\n']

def format_versioned_value (value : List Char) (ts nid : Nat) : List Char :=
  ['$', 'V', ' '] ++ natToDec value.length ++ [' '] ++ value ++ [' '] ++
    natToDec ts ++ [' '] ++ natToDec nid ++ ['\n']

namespace Coordinator

/-- The node-local state `Coordinator::execute_local` touches: the storage
engine, the optional WAL (`wal_` may be null), and `node_id_`. -/
structure LocalState where
  engine : Store := []
  wal : Option WAL.WALState := none
  node_id : Nat := 0

/-- Source `Coordinator::execute_local` (coordinator.cpp:89-181), with `now_ms()`
passed in as an explicit parameter.  Each write arm appends a WAL record
when the WAL is enabled, applies the store's LWW set/del, and returns its
response regardless of whether the store applied the write.
`maybe_snapshot()` is omitted: it only syncs/saves snapshots and never
changes the engine bindings or the response.  The switch's default arm
(reached for FWD) returns `-ERR INTERNAL`. -/
def execute_local (st : LocalState) (now_ms : Nat) (cmd : Command) :
    LocalState × List Char :=
  match cmd.type with
  | CommandType.PING => (st, format_pong)
  | CommandType.GET =>
    let r := StorageEngine.get st.engine cmd.key
    if r.found = true then (st, format_value r.value) else (st, format_not_found)
  | CommandType.SET =>
    let wal2 := match st.wal with
      | some w => some (WAL.append w { timestamp_ms := now_ms, op_type := 0, key := cmd.key.map Char.toNat, value := cmd.value.map Char.toNat }).2
      | none => none
    let eng := (StorageEngine.set st.engine cmd.key cmd.value
      { timestamp_ms := now_ms, node_id := st.node_id }).1
    ({ st with engine := eng, wal := wal2 }, format_ok)
  | CommandType.DEL =>
    let wal2 := match st.wal with
      | some w => some (WAL.append w { timestamp_ms := now_ms, op_type := 1, key := cmd.key.map Char.toNat }).2
      | none => none
    let eng := (StorageEngine.del st.engine cmd.key
      { timestamp_ms := now_ms, node_id := st.node_id }).1
    ({ st with engine := eng, wal := wal2 }, format_ok)
  | CommandType.RSET =>
    let wal2 := match st.wal with
      | some w => some (WAL.append w { timestamp_ms := cmd.timestamp_ms, op_type := 0, key := cmd.key.map Char.toNat, value := cmd.value.map Char.toNat }).2
      | none => none
    let eng := (StorageEngine.set st.engine cmd.key cmd.value
      { timestamp_ms := cmd.timestamp_ms, node_id := cmd.node_id }).1
    ({ st with engine := eng, wal := wal2 }, format_ok)
  | CommandType.RDEL =>
    let wal2 := match st.wal with
      | some w => some (WAL.append w { timestamp_ms := cmd.timestamp_ms, op_type := 1, key := cmd.key.map Char.toNat }).2
      | none => none
    let eng := (StorageEngine.del st.engine cmd.key
      { timestamp_ms := cmd.timestamp_ms, node_id := cmd.node_id }).1
    ({ st with engine := eng, wal := wal2 }, format_ok)
  | CommandType.RGET =>
    let r := StorageEngine.get st.engine cmd.key
    if r.found = true then
      (st, format_versioned_value r.value r.version.timestamp_ms r.version.node_id)
    else (st, format_not_found)
  | CommandType.FWD => (st, format_error ['I', 'N', 'T', 'E', 'R', 'N', 'A', 'L'])

end Coordinator

/-- C6: the coordinator's local execution of an RSET or RDEL returns
`+OK\n` unconditionally once the write has been attempted; in particular,
when the store's LWW guard rejects the carried version as stale, the
response is still `+OK\n` and the engine state is unchanged. -/
theorem C6_rset_rdel_always_ok (st : Coordinator.LocalState) (now : Nat) (cmd : Command)
    (h : cmd.type = CommandType.RSET ∨ cmd.type = CommandType.RDEL) :
    (Coordinator.execute_local st now cmd).2 = format_ok
    ∧ (∀ e, StorageEngine.find st.engine cmd.key = some e →
        is_newer { timestamp_ms := cmd.timestamp_ms, node_id := cmd.node_id } e.version = false →
        (Coordinator.execute_local st now cmd).1.engine = st.engine) := by
  rcases h with h | h
  · constructor
    · simp only [Coordinator.execute_local, h]
    · intro e hfind hstale
      simp only [Coordinator.execute_local, h]
      simp [StorageEngine.set, hfind, hstale]
  · constructor
    · simp only [Coordinator.execute_local, h]
    · intro e hfind hstale
      simp only [Coordinator.execute_local, h]
      simp [StorageEngine.del, hfind, hstale]

/-- Witness for C6: an RSET carrying version (1,1) against a store holding
"k" at version (5,1) — the LWW guard rejects, yet the response is +OK. -/
theorem C6_rset_rdel_always_ok_witness :
    (({ type := CommandType.RSET, key := ['k'], value := ['b'], timestamp_ms := 1, node_id := 1 } : Command).type = CommandType.RSET ∨
      ({ type := CommandType.RSET, key := ['k'], value := ['b'], timestamp_ms := 1, node_id := 1 } : Command).type = CommandType.RDEL)
    ∧ (Coordinator.execute_local { engine := [(['k'], ⟨false, ['a'], ⟨5, 1⟩⟩)] } 99
        { type := CommandType.RSET, key := ['k'], value := ['b'], timestamp_ms := 1, node_id := 1 }).2 = format_ok := by
  refine ⟨Or.inl rfl, ?_⟩
  exact (C6_rset_rdel_always_ok { engine := [(['k'], ⟨false, ['a'], ⟨5, 1⟩⟩)] } 99
    { type := CommandType.RSET, key := ['k'], value := ['b'], timestamp_ms := 1, node_id := 1 }
    (Or.inl rfl)).1

/-! ## Quorum-read winner selection (coordinator.cpp:327-356) -/

theorem is_newer_iff (a b : Version) :
    is_newer a b = true ↔
      (b.timestamp_ms < a.timestamp_ms ∨
        (a.timestamp_ms = b.timestamp_ms ∧ b.node_id < a.node_id)) := by
  simp only [is_newer]
  split
  · rename_i h
    simp
    omega
  · rename_i h
    simp
    omega

theorem is_newer_trans {a b c : Version} (h1 : is_newer a b = true)
    (h2 : is_newer b c = true) : is_newer a c = true := by
  rw [is_newer_iff] at h1 h2 ⊢
  omega

theorem version_trichotomy (a b : Version) :
    a = b ∨ is_newer a b = true ∨ is_newer b a = true := by
  obtain ⟨x1, y1⟩ := a
  obtain ⟨x2, y2⟩ := b
  simp only [is_newer_iff, Version.mk.injEq]
  omega

/-- One replica's answer in `Coordinator::quorum_read` (the `ReadResponse`
record at coordinator.cpp:291-297). -/
structure ReadResponse where
  ok : Bool := false
  found : Bool := false
  value : List Char := []
  version : Version := {}
  replica : NodeInfo := {}
deriving DecidableEq, Repr

namespace Coordinator

/-- One iteration of the winner-selection loop (coordinator.cpp:330-338):
skip failed legs; among found responses, replace the current best only
when there is none yet, or the candidate's version is strictly newer. -/
def bestStep (best : Option ReadResponse) (r : ReadResponse) : Option ReadResponse :=
  if r.ok = true then
    if r.found = true then
      match best with
      | none => some r
      | some b =>
        if b.found = false ∨ is_newer r.version b.version = true then some r else some b
    else best
  else best

/-- The winner over the replica responses, in replica order. -/
def selectBest (rs : List ReadResponse) : Option ReadResponse := rs.foldl bestStep none

/-- The stale test of the read-repair loop (coordinator.cpp:345-351). -/
def stalePred (best : ReadResponse) (r : ReadResponse) : Bool :=
  r.ok && (!r.found || is_newer best.version r.version)

/-- The replicas scheduled for asynchronous read repair. -/
def staleReplicas (rs : List ReadResponse) (best : ReadResponse) : List NodeInfo :=
  (rs.filter (stalePred best)).map ReadResponse.replica

theorem selectBest_concat (l : List ReadResponse) (r : ReadResponse) :
    selectBest (l ++ [r]) = bestStep (selectBest l) r := by
  simp [selectBest, List.foldl_append]

theorem get_concat_last (l : List ReadResponse) (x : ReadResponse)
    (h : l.length < (l ++ [x]).length) : (l ++ [x]).get ⟨l.length, h⟩ = x := by
  induction l with
  | nil => rfl
  | cons a t ih => exact ih _

theorem selectBest_spec (rs : List ReadResponse) :
    (selectBest rs = none → ∀ r ∈ rs, ¬ (r.ok = true ∧ r.found = true))
    ∧ (∀ b, selectBest rs = some b →
        ∃ i, ∃ hi : i < rs.length, rs.get ⟨i, hi⟩ = b ∧ b.ok = true ∧ b.found = true
          ∧ ∀ j, ∀ hj : j < rs.length, (rs.get ⟨j, hj⟩).ok = true →
              (rs.get ⟨j, hj⟩).found = true →
              is_newer (rs.get ⟨j, hj⟩).version b.version = false
              ∧ (j < i → is_newer b.version (rs.get ⟨j, hj⟩).version = true)) := by
  induction rs using List.reverseRecOn with
  | nil =>
    constructor
    · intro _ r hr
      simp at hr
    · intro b hb
      simp [selectBest] at hb
  | append_singleton l r ih =>
    obtain ⟨ihn, ihs⟩ := ih
    have hgetl : ∀ j (hj : j < l.length) (h2 : j < (l ++ [r]).length),
        (l ++ [r]).get ⟨j, h2⟩ = l.get ⟨j, hj⟩ := by
      intro j hj h2
      exact List.get_append j hj
    constructor
    · intro hnone x hx
      rw [selectBest_concat] at hnone
      by_cases hok : r.ok = true
      · by_cases hfound : r.found = true
        · exfalso
          cases hsel : selectBest l with
          | none =>
            rw [hsel] at hnone
            simp [bestStep, hok, hfound] at hnone
          | some b =>
            rw [hsel] at hnone
            simp only [bestStep, hok, hfound, if_true] at hnone
            split at hnone <;> simp at hnone
        · rw [show bestStep (selectBest l) r = selectBest l from by
            simp [bestStep, hok, hfound]] at hnone
          rcases List.mem_append.mp hx with hx | hx
          · exact ihn hnone x hx
          · simp at hx
            subst hx
            rintro ⟨_, hf⟩
            exact hfound hf
      · rw [show bestStep (selectBest l) r = selectBest l from by
          simp [bestStep, hok]] at hnone
        rcases List.mem_append.mp hx with hx | hx
        · exact ihn hnone x hx
        · simp at hx
          subst hx
          rintro ⟨ho, _⟩
          exact hok ho
    · intro b hb
      rw [selectBest_concat] at hb
      by_cases hok : r.ok = true
      · by_cases hfound : r.found = true
        · cases hsel : selectBest l with
          | none =>
            rw [hsel] at hb
            simp only [bestStep, hok, hfound, if_true] at hb
            obtain rfl : r = b := by simpa using hb
            refine ⟨l.length, by simp, get_concat_last l r _, hok, hfound, ?_⟩
            intro j hj hjo hjf
            by_cases hjl : j < l.length
            · exfalso
              rw [hgetl j hjl hj] at hjo hjf
              exact ihn hsel _ (List.get_mem l _ _) ⟨hjo, hjf⟩
            · have hje : j = l.length := by
                have := hj
                simp at this
                omega
              subst hje
              rw [get_concat_last l r hj]
              exact ⟨is_newer_self_eq_false _, fun hlt => absurd hlt (by omega)⟩
          | some ob =>
            rw [hsel] at hb
            obtain ⟨i, hi, hgi, hook, hof, hmax⟩ := ihs ob hsel
            simp only [bestStep, hok, hfound, if_true] at hb
            by_cases hnew : is_newer r.version ob.version = true
            · rw [if_pos (Or.inr hnew)] at hb
              obtain rfl : r = b := by simpa using hb
              refine ⟨l.length, by simp, get_concat_last l r _, hok, hfound, ?_⟩
              intro j hj hjo hjf
              by_cases hjl : j < l.length
              · rw [hgetl j hjl hj] at hjo hjf ⊢
                obtain ⟨hm1, _⟩ := hmax j hjl hjo hjf
                constructor
                · by_contra hcon
                  rw [Bool.not_eq_false] at hcon
                  rw [is_newer_trans hcon hnew] at hm1
                  exact absurd hm1 (by simp)
                · intro _
                  rcases version_trichotomy (l.get ⟨j, hjl⟩).version ob.version with
                    heq | hn1 | hn2
                  · rw [heq]
                    exact hnew
                  · rw [hn1] at hm1
                    exact absurd hm1 (by simp)
                  · exact is_newer_trans hnew hn2
              · have hje : j = l.length := by
                  have := hj
                  simp at this
                  omega
                subst hje
                rw [get_concat_last l r hj]
                exact ⟨is_newer_self_eq_false _, fun hlt => absurd hlt (by omega)⟩
            · rw [if_neg (by
                rintro (hc | hc)
                · rw [hof] at hc
                  exact absurd hc (by simp)
                · exact hnew hc)] at hb
              obtain rfl : ob = b := by simpa using hb
              refine ⟨i, by simp; omega, ?_, hook, hof, ?_⟩
              · rw [hgetl i hi _]
                exact hgi
              · intro j hj hjo hjf
                by_cases hjl : j < l.length
                · rw [hgetl j hjl hj] at hjo hjf ⊢
                  exact hmax j hjl hjo hjf
                · have hje : j = l.length := by
                    have := hj
                    simp at this
                    omega
                  subst hje
                  rw [get_concat_last l r hj] at hjo hjf ⊢
                  constructor
                  · simpa using hnew
                  · intro hlt
                    exact absurd hlt (by omega)
        · rw [show bestStep (selectBest l) r = selectBest l from by
            simp [bestStep, hok, hfound]] at hb
          obtain ⟨i, hi, hgi, hbok, hbf, hmax⟩ := ihs b hb
          refine ⟨i, by simp; omega, ?_, hbok, hbf, ?_⟩
          · rw [hgetl i hi _]
            exact hgi
          · intro j hj hjo hjf
            by_cases hjl : j < l.length
            · rw [hgetl j hjl hj] at hjo hjf ⊢
              exact hmax j hjl hjo hjf
            · have hje : j = l.length := by
                have := hj
                simp at this
                omega
              subst hje
              rw [get_concat_last l r hj] at hjo hjf
              exact absurd hjf hfound
      · rw [show bestStep (selectBest l) r = selectBest l from by
          simp [bestStep, hok]] at hb
        obtain ⟨i, hi, hgi, hbok, hbf, hmax⟩ := ihs b hb
        refine ⟨i, by simp; omega, ?_, hbok, hbf, ?_⟩
        · rw [hgetl i hi _]
          exact hgi
        · intro j hj hjo hjf
          by_cases hjl : j < l.length
          · rw [hgetl j hjl hj] at hjo hjf ⊢
            exact hmax j hjl hjo hjf
          · have hje : j = l.length := by
              have := hj
              simp at this
              omega
            subst hje
            rw [get_concat_last l r hj] at hjo hjf
            exact absurd hjo hok

end Coordinator

/-- C10: the quorum-read winner is a deterministic function of the ordered
response list: when some OK response found a value, `selectBest` returns
the earliest response in replica order whose version is maximal under the
strict LWW order (an equal version seen later never replaces the current
best); a response whose version equals the winner's is never scheduled for
read repair; and every repaired response is an OK response that either
returned not-found or a strictly older version. -/
theorem C10_quorum_read_winner (rs : List ReadResponse) :
    (Coordinator.selectBest rs = none → ∀ r ∈ rs, ¬ (r.ok = true ∧ r.found = true))
    ∧ (∀ b, Coordinator.selectBest rs = some b →
        (∃ i, ∃ hi : i < rs.length, rs.get ⟨i, hi⟩ = b ∧ b.ok = true ∧ b.found = true
          ∧ ∀ j, ∀ hj : j < rs.length, (rs.get ⟨j, hj⟩).ok = true →
              (rs.get ⟨j, hj⟩).found = true →
              is_newer (rs.get ⟨j, hj⟩).version b.version = false
              ∧ (j < i → is_newer b.version (rs.get ⟨j, hj⟩).version = true))
        ∧ (∀ r ∈ rs, r.found = true → r.version = b.version →
            Coordinator.stalePred b r = false)
        ∧ (∀ r ∈ rs, Coordinator.stalePred b r = true →
            r.ok = true ∧ (r.found = false ∨ is_newer b.version r.version = true))
        ∧ Coordinator.staleReplicas rs b =
            (rs.filter (Coordinator.stalePred b)).map ReadResponse.replica) := by
  refine ⟨(Coordinator.selectBest_spec rs).1, ?_⟩
  intro b hb
  refine ⟨(Coordinator.selectBest_spec rs).2 b hb, ?_, ?_, rfl⟩
  · intro r _ hf hv
    simp [Coordinator.stalePred, hf, hv, is_newer_self_eq_false]
  · intro r _ hp
    simp only [Coordinator.stalePred, Bool.and_eq_true, Bool.or_eq_true,
      Bool.not_eq_true'] at hp
    exact ⟨hp.1, hp.2⟩

/-- First concrete response for the C10 witness (replica 1, version (5,1)). -/
def c10resp1 : ReadResponse := { ok := true, found := true, value := ['a'], version := ⟨5, 1⟩, replica := ⟨1, []⟩ }

/-- Second concrete response for the C10 witness: same version as the first
but later in replica order. -/
def c10resp2 : ReadResponse := { ok := true, found := true, value := ['b'], version := ⟨5, 1⟩, replica := ⟨2, []⟩ }

/-- Witness for C10: with two equal-version responses the earliest wins,
and the equal-version later replica is not scheduled for read repair. -/
theorem C10_quorum_read_winner_witness :
    Coordinator.selectBest [c10resp1, c10resp2] = some c10resp1
    ∧ Coordinator.stalePred c10resp1 c10resp2 = false := by
  refine ⟨by decide, ?_⟩
  exact ((C10_quorum_read_winner [c10resp1, c10resp2]).2 c10resp1 (by decide)).2.1
    c10resp2 (by decide) (by decide) (by decide)
